import Mathlib

/-!
# Session registry and broadcast engine of the chat server

A shallow embedding of `pkg/server/state.go` (type `ClientsState` and its
methods) and of the `Login` and `Logout` handlers of `pkg/server/server.go`,
followed by the properties proved about them.

Modelling conventions

* A Go `map[string]V` is a function `String → Option V`: `m[k]` is application
  (`none` when the key is absent), `m[k] = v` is `Function.update m k (some v)`
  and `delete(m, k)` is `Function.update m k none`.
* The inner `map[string]bool` of `Names` only ever stores `true` and is only
  asked for membership and for its length, so it is a `Finset String`.
* A registered channel is the list of events buffered in it, oldest first.  The
  only `close` of the source is in `CloseStream`, on the channel it has just
  deleted from `Streams`, so a channel that is in `Streams` is open.
* Calls are taken one after another, each a function from the state before to
  the state after and the results.  The mutexes, and what two calls running at
  the same time may do between the two locks `Add` and `Remove` take in turn,
  are outside this model.
-/

namespace server

/-! ## Events -/

/-- Modelled from the spec: the generated package `pkg/chat` is not among the
sources.  The variants are the spec's `Joined`, `Left`, `Message` and
`ShuttingDown`, under the constructor names `server.go` uses for them. -/
inductive Event where
  | ClientLogin (Name : String)
  | ClientLogout (Name : String)
  | ClientMessage (Name Message : String)
  | ServerShutdown
  deriving DecidableEq, Repr

/-- Modelled from the spec: `chat.ResponseStream`, an event with the timestamp
it was created at (`ptypes.TimestampNow()`, here a number handed in by the
caller). -/
structure ResponseStream where
  Timestamp : Nat
  Event : Event
  deriving DecidableEq, Repr

/-! ## ClientsState -/

/-- The registry: `Tokens` maps a token to its client name, `Names` a client
name to the set of its tokens, `Streams` a token to its delivery channel. -/
structure ClientsState where
  Tokens : String → Option String
  Names : String → Option (Finset String)
  Streams : String → Option (List ResponseStream)

/-- The `NewClientState` constructor: three empty maps. -/
def NewClientState : ClientsState :=
  { Tokens := fun _ => none, Names := fun _ => none, Streams := fun _ => none }

/-- The `addToken` method: `c.Tokens[token] = name`. -/
def addToken (c : ClientsState) (name token : String) : ClientsState :=
  { c with Tokens := Function.update c.Tokens token (some name) }

/-- The `removeToken` method: looks the token up, deletes it when present and
returns what the lookup gave (`""` and `false` for an absent key). -/
def removeToken (c : ClientsState) (token : String) : ClientsState × String × Bool :=
  match c.Tokens token with
  | some name => ({ c with Tokens := Function.update c.Tokens token none }, name, true)
  | none => (c, "", false)

/-- The `appendClientToken` method: creates the token set of `name` when the
name is not a key of `Names`, puts the token into it, and returns whether the
name was a key before. -/
def appendClientToken (c : ClientsState) (name token : String) : ClientsState × Bool :=
  match c.Names name with
  | some set => ({ c with Names := Function.update c.Names name (some (insert token set)) }, true)
  | none => ({ c with Names := Function.update c.Names name (some (insert token ∅)) }, false)

/-- The `removeClientToken` method: `false` when the name is not a key or the
token is not in its set; otherwise the token is deleted from the set, and the
name is deleted from `Names` (result `true`) exactly when the set became
empty. -/
def removeClientToken (c : ClientsState) (name token : String) : ClientsState × Bool :=
  match c.Names name with
  | none => (c, false)
  | some set =>
    if token ∈ set then
      if (set.erase token).card > 0 then
        ({ c with Names := Function.update c.Names name (some (set.erase token)) }, false)
      else
        ({ c with Names := Function.update c.Names name none }, true)
    else (c, false)

/-- The `Add` method: `addToken`, then the negation of what
`appendClientToken` returns. -/
def Add (c : ClientsState) (name token : String) : ClientsState × Bool :=
  let r := appendClientToken (addToken c name token) name token
  (r.1, !r.2)

/-- The `GetNameByToken` method: a lookup in `Tokens`.  The state is returned
as well, as the method has a pointer receiver. -/
def GetNameByToken (c : ClientsState) (token : String) : ClientsState × String × Bool :=
  match c.Tokens token with
  | some name => (c, name, true)
  | none => (c, "", false)

/-- The `Remove` method: `removeToken`; `("", false)` when the token was not
found, otherwise the name and the result of `removeClientToken`. -/
def Remove (c : ClientsState) (token : String) : ClientsState × String × Bool :=
  let r := removeToken c token
  if r.2.2 then
    let r2 := removeClientToken r.1 r.2.1 token
    (r2.1, r.2.1, r2.2)
  else (r.1, "", false)

/-- The non-blocking send `select { case stream <- s: default: }` on a channel
of capacity 100: the event is appended when there is room and dropped when the
channel is full. -/
def trySend (stream : List ResponseStream) (s : ResponseStream) : List ResponseStream :=
  if stream.length < 100 then stream ++ [s] else stream

/-- The `Broadcast` method: the non-blocking send on every channel of
`Streams`. -/
def Broadcast (c : ClientsState) (s : ResponseStream) : ClientsState :=
  { c with Streams := fun token => (c.Streams token).map (fun stream => trySend stream s) }

/-- The `AddStream` method: a new empty channel is stored under the token,
replacing whatever was there, and returned. -/
def AddStream (c : ClientsState) (token : String) : ClientsState × List ResponseStream :=
  ({ c with Streams := Function.update c.Streams token (some []) }, [])

/-- The `CloseStream` method: when the token has a channel, the entry is
deleted (and that channel closed); otherwise nothing happens. -/
def CloseStream (c : ClientsState) (token : String) : ClientsState :=
  match c.Streams token with
  | some _ => { c with Streams := Function.update c.Streams token none }
  | none => c

/-- The receive `res := <-stream` of `sendEventsToClient` on the channel
registered for the token: the oldest buffered event is taken out; an empty
channel gives nothing (the receiver keeps waiting). -/
def dequeue (c : ClientsState) (token : String) : ClientsState × Option ResponseStream :=
  match c.Streams token with
  | some (res :: rest) => ({ c with Streams := Function.update c.Streams token (some rest) }, some res)
  | _ => (c, none)

/-! ## Server handlers -/

/-- The gRPC status codes the handlers return. -/
inductive Code where
  | InvalidArgument
  | NotFound
  | Unauthenticated
  deriving DecidableEq, Repr

/-- What a handler returns: a response or an error status. -/
inductive Reply (α : Type) where
  | ok (response : α)
  | error (code : Code) (message : String)
  deriving DecidableEq, Repr

/-- The `Server` struct.  `Broadcast` is the sequence of events sent on the
server's broadcast channel, oldest first (a send on the full channel waits for
the dispatcher, it does not drop).  The logger is left out. -/
structure Server where
  Addr : String
  Clients : ClientsState
  Broadcast : List ResponseStream

/-- The `NewServer` constructor: refuses the empty address, otherwise a server
with a new registry and an empty broadcast channel. -/
def NewServer (addr : String) (_allowDebug : Bool) : Option Server :=
  if addr = "" then none
  else some { Addr := addr, Clients := NewClientState, Broadcast := [] }

/-- The `Login` handler.  The token is generated outside the registry (hash of
name, clock and random digits) and the timestamp read from the clock: both are
arguments here.  An empty name is refused; otherwise the client is added, and
a login event is sent when `Add` returned `true`. -/
def Login (s : Server) (name token : String) (now : Nat) : Server × Reply String :=
  if name = "" then (s, Reply.error Code.InvalidArgument "name is required")
  else
    let r := Add s.Clients name token
    if r.2 then
      ({ s with Clients := r.1, Broadcast := s.Broadcast ++ [⟨now, Event.ClientLogin name⟩] },
        Reply.ok token)
    else ({ s with Clients := r.1 }, Reply.ok token)

/-- The `Logout` handler: `Remove` (which works on the registry in place); the
call fails when that returned `false` and the empty name; otherwise a logout
event is sent when it returned `true`. -/
def Logout (s : Server) (token : String) (now : Nat) : Server × Reply Unit :=
  let r := Remove s.Clients token
  if !r.2.2 && r.2.1 = "" then
    ({ s with Clients := r.1 }, Reply.error Code.NotFound "Token not found")
  else if r.2.2 then
    ({ s with Clients := r.1, Broadcast := s.Broadcast ++ [⟨now, Event.ClientLogout r.2.1⟩] },
      Reply.ok ())
  else ({ s with Clients := r.1 }, Reply.ok ())

/-! ## Sequences of calls -/

/-- A call of one of the two registry mutators. -/
inductive RegOp where
  | add (name token : String)
  | remove (token : String)
  deriving DecidableEq, Repr

/-- The state after one registry call. -/
def RegOp.apply (c : ClientsState) : RegOp → ClientsState
  | RegOp.add name token => (Add c name token).1
  | RegOp.remove token => (Remove c token).1

/-- The state after a sequence of registry calls, made in order. -/
def run (ops : List RegOp) (c : ClientsState) : ClientsState :=
  ops.foldl RegOp.apply c

/-- The number of active sessions of a name: the size of its token set in
`Names`, zero when the name is not a key. -/
def sessions (c : ClientsState) (name : String) : Nat :=
  match c.Names name with
  | some set => set.card
  | none => 0

/-- The token set of a name in `Names`, empty when the name is not a key. -/
def tokenSet (c : ClientsState) (name : String) : Finset String :=
  match c.Names name with
  | some set => set
  | none => ∅


/-! ## Invariants of the registry -/

/-- Every key of `Names` has a non-empty token set. -/
def NamesNonempty (c : ClientsState) : Prop :=
  ∀ name set, c.Names name = some set → set.Nonempty

/-- A token registered in `Tokens` is in the token set of its name. -/
def TokensInNames (c : ClientsState) : Prop :=
  ∀ token name, c.Tokens token = some name → token ∈ tokenSet c name

/-- Whether the call is an `Add` of the given token. -/
def RegOp.adds (token : String) : RegOp → Bool
  | RegOp.add _ t => t = token
  | RegOp.remove _ => false

/-- No call of the sequence is an `Add` of the given token. -/
def neverAdded (token : String) (ops : List RegOp) : Bool :=
  ops.all (fun op => !op.adds token)

/-! ## Sequences of steps on the delivery channels -/

/-- A step on `Streams`: a `Broadcast`, a receive by the session of a token, or
the opening or closing of a token's channel. -/
inductive StreamOp where
  | broadcast (s : ResponseStream)
  | dequeue (token : String)
  | addStream (token : String)
  | closeStream (token : String)
  deriving DecidableEq, Repr

/-- The state after one step. -/
def StreamOp.apply (c : ClientsState) : StreamOp → ClientsState
  | StreamOp.broadcast s => Broadcast c s
  | StreamOp.dequeue token => (server.dequeue c token).1
  | StreamOp.addStream token => (AddStream c token).1
  | StreamOp.closeStream token => CloseStream c token

/-- The state after a sequence of steps, made in order. -/
def runStream (ops : List StreamOp) (c : ClientsState) : ClientsState :=
  ops.foldl StreamOp.apply c

/-- The events the session of `token` receives during the steps, in the order
it receives them. -/
def delivered (token : String) : List StreamOp → ClientsState → List ResponseStream
  | [], _ => []
  | StreamOp.dequeue t :: ops, c =>
    (if t = token then (dequeue c t).2.toList else [])
      ++ delivered token ops (dequeue c t).1
  | op :: ops, c => delivered token ops (op.apply c)

/-- The events broadcast during the steps, in order. -/
def published : List StreamOp → List ResponseStream
  | [] => []
  | StreamOp.broadcast s :: ops => s :: published ops
  | _ :: ops => published ops

/-- No step opens or closes the channel of `token`. -/
def staysOpen (token : String) : List StreamOp → Bool
  | [] => true
  | StreamOp.addStream t :: ops => t ≠ token && staysOpen token ops
  | StreamOp.closeStream t :: ops => t ≠ token && staysOpen token ops
  | _ :: ops => staysOpen token ops

/-- The registry invariant: a token is in the token set of at most one name; a
token is in the token set of a name exactly when `Tokens` maps it to that name;
a name is a key of `Names` exactly when its token set is non-empty. -/
def RegistryInvariant (c : ClientsState) : Prop :=
  (∀ token n m, token ∈ tokenSet c n → token ∈ tokenSet c m → n = m) ∧
  (∀ token n, token ∈ tokenSet c n ↔ c.Tokens token = some n) ∧
  (∀ n, (c.Names n).isSome = true ↔ (tokenSet c n).Nonempty)

/-- Every `Add` of the sequence, run from `c`, is called with a token that is
at that moment either not registered in `Tokens` or registered there under the
name it is added for. -/
def addsKeepName : List RegOp → ClientsState → Bool
  | [], _ => true
  | RegOp.add name token :: ops, c =>
    (c.Tokens token = none || c.Tokens token = some name)
      && addsKeepName ops (Add c name token).1
  | RegOp.remove token :: ops, c => addsKeepName ops (Remove c token).1

/-! ## Sequences of handler calls -/

/-- A call of the `Login` or the `Logout` handler, with the token generated
for the login and the clock reading. -/
inductive Call where
  | login (name token : String) (now : Nat)
  | logout (token : String) (now : Nat)
  deriving DecidableEq, Repr

/-- The server after one handler call. -/
def Call.apply (s : Server) : Call → Server
  | Call.login name token now => (Login s name token now).1
  | Call.logout token now => (Logout s token now).1

/-- The server after a sequence of handler calls, made in order. -/
def serve (calls : List Call) (s : Server) : Server :=
  calls.foldl Call.apply s

/-- The login and logout events of one name in a sequence of published
events, in order. -/
def eventsFor (name : String) (log : List ResponseStream) : List Event :=
  (log.map ResponseStream.Event).filter
    (fun e => decide (e = Event.ClientLogin name ∨ e = Event.ClientLogout name))

/-- The events are alternately a login and a logout of the name; the flag tells
whether the first one is to be a login. -/
def alternatesFrom (name : String) : Bool → List Event → Bool
  | _, [] => true
  | true, e :: rest => decide (e = Event.ClientLogin name) && alternatesFrom name false rest
  | false, e :: rest => decide (e = Event.ClientLogout name) && alternatesFrom name true rest

/-- Every name registered in `Tokens` is non-empty. -/
def NamesNotEmptyString (c : ClientsState) : Prop :=
  ∀ token name, c.Tokens token = some name → name ≠ ""

/-- The published events of the name alternate, starting with a login, and
the name is a key of `Names` exactly when the last of them is a login. -/
def LogInvariant (name : String) (s : Server) : Prop :=
  alternatesFrom name true (eventsFor name s.Broadcast) = true ∧
  ((s.Clients.Names name).isSome = true ↔ (eventsFor name s.Broadcast).length % 2 = 1)

/-- What holds of the server after every sequence of handler calls. -/
def ServerInvariant (s : Server) : Prop :=
  NamesNonempty s.Clients ∧ TokensInNames s.Clients ∧ NamesNotEmptyString s.Clients ∧
    ∀ name, LogInvariant name s

/-! ## Delivery channels as references, and stream sessions

Which session a registered channel belongs to is a question about the channel
object, not about the events in it.  Here a channel made by `make` gets a
reference, the number of channels made before it, and the registry is the one
above with every channel of `Streams` paired with its reference.  A channel
reaches `Streams` only from the `make` of `AddStream`, under one token, and once
deleted never comes back, so no two entries share a channel.  `closed` lists
the channels `close` has been called on. -/

namespace Refs

/-- The registry with channel references: `Streams` maps a token to the
reference of its channel and the events buffered in it, `made` counts the
channels made so far, `closed` holds the references of the closed ones. -/
structure ClientsState where
  Tokens : String → Option String
  Names : String → Option (Finset String)
  Streams : String → Option (Nat × List ResponseStream)
  made : Nat
  closed : List Nat

/-- The `NewClientState` constructor: three empty maps, no channel made. -/
def NewClientState : ClientsState :=
  { Tokens := fun _ => none, Names := fun _ => none, Streams := fun _ => none,
    made := 0, closed := [] }

/-- The `AddStream` method: `make` gives a new empty channel, which is stored
under the token, replacing whatever was there, and returned. -/
def AddStream (c : ClientsState) (token : String) : ClientsState × Nat :=
  ({ c with Streams := Function.update c.Streams token (some (c.made, [])),
            made := c.made + 1 }, c.made)

/-- The `CloseStream` method: when the token has a channel, the entry is
deleted and that channel closed; `close` of a channel that is closed already
panics (`none`).  Without an entry nothing happens. -/
def CloseStream (c : ClientsState) (token : String) : Option ClientsState :=
  match c.Streams token with
  | some (stream, _) =>
    if stream ∈ c.closed then none
    else some { c with Streams := Function.update c.Streams token none,
                       closed := stream :: c.closed }
  | none => some c

/-- The `Broadcast` method: the non-blocking send on every channel of
`Streams`. -/
def Broadcast (c : ClientsState) (s : ResponseStream) : ClientsState :=
  { c with Streams := fun token =>
      (c.Streams token).map (fun stream => (stream.1, trySend stream.2 s)) }

/-- The registry without the references: the state of the model above. -/
def forget (c : ClientsState) : server.ClientsState :=
  { Tokens := c.Tokens, Names := c.Names,
    Streams := fun token => (c.Streams token).map Prod.snd }

/-- The registry and the stream sessions: `stream` is the local variable
`stream` of `sendEventsToClient` in each session that has called
`AddStream`, the reference it got back. -/
structure Sessions where
  Clients : ClientsState
  stream : Nat → Option Nat

/-- A new registry and no session. -/
def NewSessions : Sessions :=
  { Clients := NewClientState, stream := fun _ => none }

/-- A step of the stream sessions: session `id` becomes active on a token and
calls `AddStream`; session `id` ends and its deferred `CloseStream` runs; an
event is broadcast. -/
inductive SessionOp where
  | start (id : Nat) (token : String)
  | stop (id : Nat) (token : String)
  | broadcast (s : ResponseStream)
  deriving DecidableEq, Repr

/-- One step; `none` when `close` panics. -/
def step (st : Sessions) : SessionOp → Option Sessions
  | SessionOp.start id token =>
    some { Clients := (AddStream st.Clients token).1,
           stream := Function.update st.stream id (some (AddStream st.Clients token).2) }
  | SessionOp.stop _ token =>
    (CloseStream st.Clients token).map (fun c => { st with Clients := c })
  | SessionOp.broadcast s => some { st with Clients := Broadcast st.Clients s }

/-- The steps in order, from the given state. -/
def runSessions : List SessionOp → Sessions → Option Sessions
  | [], st => some st
  | op :: ops, st => (step st op).bind (runSessions ops)

/-- The channel session `id` got from `AddStream` is the one registered under
the token, and it is open. -/
def ownsQueue (st : Sessions) (id : Nat) (token : String) : Bool :=
  match st.stream id, st.Clients.Streams token with
  | some mine, some (stream, _) => stream = mine && !(mine ∈ st.Clients.closed)
  | _, _ => false

/-- Every session starts at most once, and ends at most once, after it has
started and on the token it started on.  The two lists are the sessions
started and the sessions ended so far. -/
def wellFormedFrom : List SessionOp → List (Nat × String) → List Nat → Bool
  | [], _, _ => true
  | SessionOp.start id token :: ops, started, ended =>
    !((started.map Prod.fst).contains id) && wellFormedFrom ops ((id, token) :: started) ended
  | SessionOp.stop id token :: ops, started, ended =>
    started.contains (id, token) && !(ended.contains id)
      && wellFormedFrom ops started (id :: ended)
  | SessionOp.broadcast _ :: ops, started, ended => wellFormedFrom ops started ended

/-- The steps are those of sessions each of which calls `AddStream` once when
it becomes active and `CloseStream` once when it ends. -/
def wellFormed (ops : List SessionOp) : Bool :=
  wellFormedFrom ops [] []

/-- Session `id` has started on the token and has not ended. -/
def active (ops : List SessionOp) (id : Nat) (token : String) : Bool :=
  ops.contains (SessionOp.start id token) && !(ops.contains (SessionOp.stop id token))

/-- No step is the start or the end of a session on the token, and none is a
start of session `id`: nothing but broadcasts and the sessions of other tokens
happens to the token while session `id` is active on it. -/
def undisturbed (id : Nat) (token : String) : List SessionOp → Bool
  | [] => true
  | SessionOp.start i t :: ops => i ≠ id && t ≠ token && undisturbed id token ops
  | SessionOp.stop _ t :: ops => t ≠ token && undisturbed id token ops
  | SessionOp.broadcast _ :: ops => undisturbed id token ops

/-- The events broadcast during the steps, in order. -/
def broadcasts : List SessionOp → List ResponseStream
  | [] => []
  | SessionOp.broadcast s :: ops => s :: broadcasts ops
  | _ :: ops => broadcasts ops

/-- What makes `close` safe: every closed channel has been made, and a
registered channel has been made, is not closed, and is registered under one
token only. -/
def StreamsInvariant (c : ClientsState) : Prop :=
  (∀ stream, stream ∈ c.closed → stream < c.made) ∧
  ∀ token stream buffered, c.Streams token = some (stream, buffered) →
    stream < c.made ∧ stream ∉ c.closed ∧
      ∀ other buffered2, c.Streams other = some (stream, buffered2) → other = token

end Refs

/-! ## What `Add` and `Remove` do to the three maps -/

theorem Add_snd (c : ClientsState) (name token : String) :
    (Add c name token).2 = (c.Names name).isNone := by
  unfold Add appendClientToken addToken
  cases h : c.Names name <;> simp [h]

theorem Add_Names (c : ClientsState) (name token : String) :
    (Add c name token).1.Names
      = Function.update c.Names name (some (insert token (tokenSet c name))) := by
  unfold Add appendClientToken addToken tokenSet
  cases h : c.Names name <;> simp [h]

theorem Add_Tokens (c : ClientsState) (name token : String) :
    (Add c name token).1.Tokens = Function.update c.Tokens token (some name) := by
  unfold Add appendClientToken addToken
  cases h : c.Names name <;> simp [h]

theorem Add_Streams (c : ClientsState) (name token : String) :
    (Add c name token).1.Streams = c.Streams := by
  unfold Add appendClientToken addToken
  cases h : c.Names name <;> simp [h]

theorem Remove_of_none (c : ClientsState) (token : String) (h : c.Tokens token = none) :
    Remove c token = (c, "", false) := by
  simp [Remove, removeToken, h]

theorem Remove_of_some (c : ClientsState) (token name : String)
    (h : c.Tokens token = some name) :
    Remove c token =
      ((removeClientToken { c with Tokens := Function.update c.Tokens token none } name token).1,
        name,
        (removeClientToken { c with Tokens := Function.update c.Tokens token none } name token).2) := by
  simp [Remove, removeToken, h]

theorem removeClientToken_Tokens (c : ClientsState) (name token : String) :
    (removeClientToken c name token).1.Tokens = c.Tokens := by
  unfold removeClientToken
  cases h : c.Names name with
  | none => rfl
  | some set => dsimp only; split_ifs <;> rfl

theorem removeClientToken_Streams (c : ClientsState) (name token : String) :
    (removeClientToken c name token).1.Streams = c.Streams := by
  unfold removeClientToken
  cases h : c.Names name with
  | none => rfl
  | some set => dsimp only; split_ifs <;> rfl

theorem Remove_Tokens (c : ClientsState) (token : String) :
    (Remove c token).1.Tokens = Function.update c.Tokens token none := by
  cases h : c.Tokens token with
  | none =>
    rw [Remove_of_none c token h]
    funext t
    by_cases ht : t = token
    · subst ht; simp [h]
    · simp [Function.update_noteq ht]
  | some name =>
    rw [Remove_of_some c token name h]
    simp [removeClientToken_Tokens]

theorem Remove_Streams (c : ClientsState) (token : String) :
    (Remove c token).1.Streams = c.Streams := by
  cases h : c.Tokens token with
  | none => rw [Remove_of_none c token h]
  | some name =>
    rw [Remove_of_some c token name h]
    simp [removeClientToken_Streams]


theorem Remove_registered (c : ClientsState) (token name : String) (set : Finset String)
    (hT : c.Tokens token = some name) (hN : c.Names name = some set) (hm : token ∈ set) :
    Remove c token =
      ({ Tokens := Function.update c.Tokens token none,
         Names := Function.update c.Names name
           (if 0 < (set.erase token).card then some (set.erase token) else none),
         Streams := c.Streams },
        name, decide (¬ 0 < (set.erase token).card)) := by
  rw [Remove_of_some c token name hT]
  unfold removeClientToken
  simp only [hN, hm, if_true]
  by_cases hc : 0 < (set.erase token).card
  · simp only [gt_iff_lt, hc, if_true, not_true_eq_false, decide_False]
  · simp only [gt_iff_lt, hc, if_false, not_false_eq_true, decide_True]

theorem tokenSet_of_some {c : ClientsState} {name : String} {set : Finset String}
    (h : c.Names name = some set) : tokenSet c name = set := by
  simp [tokenSet, h]

theorem tokenSet_of_none {c : ClientsState} {name : String}
    (h : c.Names name = none) : tokenSet c name = ∅ := by
  simp [tokenSet, h]

theorem mem_tokenSet_iff (c : ClientsState) (name token : String) :
    token ∈ tokenSet c name ↔ ∃ set, c.Names name = some set ∧ token ∈ set := by
  cases h : c.Names name with
  | none => simp [tokenSet, h]
  | some set => simp [tokenSet, h]

theorem sessions_eq_card (c : ClientsState) (name : String) :
    sessions c name = (tokenSet c name).card := by
  cases h : c.Names name with
  | none => simp [sessions, tokenSet, h]
  | some set => simp [sessions, tokenSet, h]

/-! ## The invariants hold after every sequence of `Add` and `Remove` -/

theorem NamesNonempty_New : NamesNonempty NewClientState := by
  intro name set h
  simp [NewClientState] at h

theorem TokensInNames_New : TokensInNames NewClientState := by
  intro token name h
  simp [NewClientState] at h

theorem NamesNonempty_Add (c : ClientsState) (name token : String)
    (h : NamesNonempty c) : NamesNonempty (Add c name token).1 := by
  intro n set hn
  rw [Add_Names] at hn
  by_cases hnn : n = name
  · subst hnn
    rw [Function.update_same] at hn
    cases hn
    exact Finset.insert_nonempty _ _
  · rw [Function.update_noteq hnn] at hn
    exact h n set hn

theorem TokensInNames_Add (c : ClientsState) (name token : String)
    (h : TokensInNames c) : TokensInNames (Add c name token).1 := by
  intro t n ht
  rw [Add_Tokens] at ht
  rw [mem_tokenSet_iff, Add_Names]
  by_cases hn : n = name
  · subst hn
    refine ⟨_, Function.update_same _ _ _, ?_⟩
    by_cases htt : t = token
    · subst htt; exact Finset.mem_insert_self _ _
    · rw [Function.update_noteq htt] at ht
      exact Finset.mem_insert_of_mem (h t n ht)
  · have htt : t ≠ token := by
      intro e
      subst e
      rw [Function.update_same] at ht
      cases ht
      exact hn rfl
    rw [Function.update_noteq htt] at ht
    rw [Function.update_noteq hn]
    exact (mem_tokenSet_iff c n t).1 (h t n ht)

theorem invariants_Remove (c : ClientsState) (token : String)
    (h1 : NamesNonempty c) (h2 : TokensInNames c) :
    NamesNonempty (Remove c token).1 ∧ TokensInNames (Remove c token).1 := by
  cases hT : c.Tokens token with
  | none => rw [Remove_of_none c token hT]; exact ⟨h1, h2⟩
  | some name =>
    obtain ⟨set, hN, hm⟩ := (mem_tokenSet_iff c name token).1 (h2 token name hT)
    rw [Remove_registered c token name set hT hN hm]
    constructor
    · intro n s hn
      by_cases hnn : n = name
      · subst hnn
        simp only [Function.update_same] at hn
        by_cases hc : 0 < (set.erase token).card
        · simp only [hc, if_true, Option.some.injEq] at hn
          subst hn
          exact Finset.card_pos.1 hc
        · simp [hc] at hn
      · simp only [Function.update_noteq hnn] at hn
        exact h1 n s hn
    · intro t n ht
      have htt : t ≠ token := by
        intro e
        subst e
        simp at ht
      simp only [Function.update_noteq htt] at ht
      have hmem := h2 t n ht
      rw [mem_tokenSet_iff] at hmem ⊢
      by_cases hnn : n = name
      · subst hnn
        obtain ⟨s, hs, hts⟩ := hmem
        rw [hN] at hs
        cases hs
        have hte : t ∈ set.erase token := Finset.mem_erase.2 ⟨htt, hts⟩
        have hc : 0 < (set.erase token).card := Finset.card_pos.2 ⟨t, hte⟩
        exact ⟨set.erase token, by simp [hc], hte⟩
      · simpa [Function.update_noteq hnn] using hmem

theorem invariants_run (ops : List RegOp) (c : ClientsState)
    (h1 : NamesNonempty c) (h2 : TokensInNames c) :
    NamesNonempty (run ops c) ∧ TokensInNames (run ops c) := by
  induction ops generalizing c with
  | nil => exact ⟨h1, h2⟩
  | cons op ops ih =>
    cases op with
    | add name token =>
      exact ih _ (NamesNonempty_Add c name token h1) (TokensInNames_Add c name token h2)
    | remove token =>
      exact ih _ (invariants_Remove c token h1 h2).1 (invariants_Remove c token h1 h2).2

theorem invariants_reachable (ops : List RegOp) :
    NamesNonempty (run ops NewClientState) ∧ TokensInNames (run ops NewClientState) :=
  invariants_run ops NewClientState NamesNonempty_New TokensInNames_New

/-! ## `Add` and `Remove` report the first and the last session -/

theorem Add_true_iff (c : ClientsState) (name token : String) (h : NamesNonempty c) :
    (Add c name token).2 = true ↔
      (sessions c name = 0 ∧ sessions (Add c name token).1 name = 1) := by
  rw [Add_snd]
  cases hN : c.Names name with
  | none =>
    have h1 : sessions c name = 0 := by simp [sessions, hN]
    have h2 : sessions (Add c name token).1 name = 1 := by
      simp [sessions, Add_Names, tokenSet, hN]
    simp [h1, h2]
  | some set =>
    have hne : sessions c name ≠ 0 := by
      simp only [sessions, hN]
      exact Finset.card_ne_zero.2 (h name set hN)
    simp [hne]

/-- C1. After every sequence of `Add` and `Remove` calls on a new registry,
`Add(name, token)` returns `true` exactly when the name had no active session
before the call and has one after it; when the name has a session already the
call returns `false`, and so does an `Add` that follows an `Add` for the same
name, whatever its token. -/
theorem Add_reports_first_session (ops : List RegOp) (name token : String) :
    ((Add (run ops NewClientState) name token).2 = true ↔
      (sessions (run ops NewClientState) name = 0 ∧
        sessions (Add (run ops NewClientState) name token).1 name = 1)) ∧
    (sessions (run ops NewClientState) name ≠ 0 →
      (Add (run ops NewClientState) name token).2 = false) ∧
    (∀ other : String,
      (Add (Add (run ops NewClientState) name token).1 name other).2 = false) := by
  have hinv := (invariants_reachable ops).1
  refine ⟨Add_true_iff _ name token hinv, ?_, ?_⟩
  · intro hne
    cases hb : (Add (run ops NewClientState) name token).2 with
    | false => rfl
    | true => exact absurd ((Add_true_iff _ name token hinv).1 hb).1 hne
  · intro other
    rw [Add_snd, Add_Names, Function.update_same]
    rfl

theorem Add_reports_first_session_witness :
    sessions (run [RegOp.add "Alice" "Example"] NewClientState) "Alice" ≠ 0 ∧
    (Add (run [RegOp.add "Alice" "Example"] NewClientState) "Alice" "Example2").2 = false :=
  ⟨by decide,
    (Add_reports_first_session [RegOp.add "Alice" "Example"] "Alice" "Example2").2.1 (by decide)⟩

theorem Remove_last_iff (c : ClientsState) (token name : String)
    (h2 : TokensInNames c) (h : c.Tokens token = some name) :
    (Remove c token).2.1 = name ∧
    ((Remove c token).2.2 = true ↔ tokenSet c name = {token}) ∧
    ((Remove c token).2.2 = true ↔
      (sessions c name = 1 ∧ sessions (Remove c token).1 name = 0)) ∧
    (Remove c token).1.Tokens token = none ∧
    token ∉ tokenSet (Remove c token).1 name := by
  obtain ⟨set, hN, hm⟩ := (mem_tokenSet_iff c name token).1 (h2 token name h)
  rw [Remove_registered c token name set h hN hm]
  have hset : tokenSet c name = set := tokenSet_of_some hN
  have hcard : (set.erase token).card = set.card - 1 := Finset.card_erase_of_mem hm
  have hpos : 0 < set.card := Finset.card_pos.2 ⟨token, hm⟩
  have hone : set = {token} ↔ set.card = 1 := by
    constructor
    · intro e; rw [e]; rfl
    · intro e
      obtain ⟨a, ha⟩ := Finset.card_eq_one.1 e
      rw [ha] at hm ⊢
      rw [Finset.mem_singleton.1 hm]
  refine ⟨rfl, ?_, ?_, ?_, ?_⟩
  · rw [hset, hone]
    simp only [decide_eq_true_eq]
    omega
  · rw [sessions_eq_card c name, hset]
    by_cases hc : 0 < (set.erase token).card
    · have : ¬ set.card = 1 := by omega
      simp [hc, this]
    · have h1 : set.card = 1 := by omega
      simp [hc, h1, sessions]
  · simp
  · by_cases hc : 0 < (set.erase token).card
    · simp [tokenSet, hc]
    · simp [tokenSet, hc]

/-- C2. After every sequence of `Add` and `Remove` calls on a new registry, for
a token registered in `Tokens` under `name`: `Remove(token)` returns that name;
its flag is `true` exactly when the token was the only member of the name's
token set, which is exactly when the name goes from one session to none; and
afterwards the token is neither in `Tokens` nor in the name's token set. -/
theorem Remove_reports_last_session (ops : List RegOp) (token name : String)
    (h : (run ops NewClientState).Tokens token = some name) :
    (Remove (run ops NewClientState) token).2.1 = name ∧
    ((Remove (run ops NewClientState) token).2.2 = true ↔
      tokenSet (run ops NewClientState) name = {token}) ∧
    ((Remove (run ops NewClientState) token).2.2 = true ↔
      (sessions (run ops NewClientState) name = 1 ∧
        sessions (Remove (run ops NewClientState) token).1 name = 0)) ∧
    (Remove (run ops NewClientState) token).1.Tokens token = none ∧
    token ∉ tokenSet (Remove (run ops NewClientState) token).1 name :=
  Remove_last_iff (run ops NewClientState) token name (invariants_reachable ops).2 h

theorem Remove_reports_last_session_witness :
    (run [RegOp.add "Alice" "example", RegOp.add "Alice" "example2"] NewClientState).Tokens
        "example" = some "Alice" ∧
    ((Remove (run [RegOp.add "Alice" "example", RegOp.add "Alice" "example2"] NewClientState)
        "example").2.1 = "Alice" ∧
    ((Remove (run [RegOp.add "Alice" "example", RegOp.add "Alice" "example2"] NewClientState)
        "example").2.2 = true ↔
      tokenSet (run [RegOp.add "Alice" "example", RegOp.add "Alice" "example2"] NewClientState)
        "Alice" = {"example"}) ∧
    ((Remove (run [RegOp.add "Alice" "example", RegOp.add "Alice" "example2"] NewClientState)
        "example").2.2 = true ↔
      (sessions (run [RegOp.add "Alice" "example", RegOp.add "Alice" "example2"] NewClientState)
          "Alice" = 1 ∧
        sessions (Remove (run [RegOp.add "Alice" "example", RegOp.add "Alice" "example2"]
          NewClientState) "example").1 "Alice" = 0)) ∧
    (Remove (run [RegOp.add "Alice" "example", RegOp.add "Alice" "example2"] NewClientState)
        "example").1.Tokens "example" = none ∧
    "example" ∉ tokenSet (Remove (run [RegOp.add "Alice" "example", RegOp.add "Alice" "example2"]
        NewClientState) "example").1 "Alice") :=
  ⟨by decide,
    Remove_reports_last_session [RegOp.add "Alice" "example", RegOp.add "Alice" "example2"]
      "example" "Alice" (by decide)⟩

/-- C3. In every registry state, `Remove` of a token that is not a key of
`Tokens` returns `("", false)` and leaves the state as it was; and a second
`Remove` of the token that a first `Remove` has just been called with returns
`("", false)` and changes nothing. -/
theorem Remove_unknown_token (c : ClientsState) (token : String) :
    (c.Tokens token = none → Remove c token = (c, "", false)) ∧
    Remove (Remove c token).1 token = ((Remove c token).1, "", false) := by
  refine ⟨Remove_of_none c token, Remove_of_none _ token ?_⟩
  rw [Remove_Tokens, Function.update_same]

theorem Remove_unknown_token_witness :
    (run [RegOp.add "Alice" "example"] NewClientState).Tokens "example5" = none ∧
    Remove (run [RegOp.add "Alice" "example"] NewClientState) "example5"
      = (run [RegOp.add "Alice" "example"] NewClientState, "", false) :=
  ⟨by decide,
    (Remove_unknown_token (run [RegOp.add "Alice" "example"] NewClientState) "example5").1
      (by decide)⟩

theorem run_Tokens_neverAdded (token : String) (ops : List RegOp) (c : ClientsState)
    (hc : c.Tokens token = none) (h : neverAdded token ops = true) :
    (run ops c).Tokens token = none := by
  induction ops generalizing c with
  | nil => exact hc
  | cons op ops ih =>
    simp only [neverAdded, List.all_cons, Bool.and_eq_true] at h
    refine ih _ ?_ (by simpa [neverAdded] using h.2)
    cases op with
    | add name t =>
      have ht : token ≠ t := by
        intro e
        simp [RegOp.adds, e] at h
      show (Add c name t).1.Tokens token = none
      rw [Add_Tokens, Function.update_noteq ht]
      exact hc
    | remove t =>
      show (Remove c t).1.Tokens token = none
      rw [Remove_Tokens]
      by_cases ht : token = t
      · subst ht; simp
      · rw [Function.update_noteq ht]; exact hc

theorem GetNameByToken_of_none (c : ClientsState) (token : String)
    (h : c.Tokens token = none) : GetNameByToken c token = (c, "", false) := by
  simp [GetNameByToken, h]

/-- C4. In every registry state: after `Add(name, token)` the lookup of the
token gives `(name, true)`; after `Remove(token)` it gives `("", false)`; on a
registry built from a new one by calls none of which added the token it gives
`("", false)`; and the lookup leaves the state as it was. -/
theorem GetNameByToken_after_Add_Remove (c : ClientsState) (name token : String)
    (ops : List RegOp) :
    GetNameByToken (Add c name token).1 token = ((Add c name token).1, name, true) ∧
    GetNameByToken (Remove c token).1 token = ((Remove c token).1, "", false) ∧
    (neverAdded token ops = true →
      GetNameByToken (run ops NewClientState) token = (run ops NewClientState, "", false)) ∧
    (GetNameByToken c token).1 = c := by
  refine ⟨?_, ?_, ?_, ?_⟩
  · have h : (Add c name token).1.Tokens token = some name := by
      rw [Add_Tokens, Function.update_same]
    simp [GetNameByToken, h]
  · apply GetNameByToken_of_none
    rw [Remove_Tokens, Function.update_same]
  · intro h
    exact GetNameByToken_of_none _ token (run_Tokens_neverAdded token ops _ rfl h)
  · unfold GetNameByToken
    cases c.Tokens token <;> rfl

theorem GetNameByToken_after_Add_Remove_witness :
    neverAdded "unknown" [RegOp.add "Alice" "example"] = true ∧
    GetNameByToken (run [RegOp.add "Alice" "example"] NewClientState) "unknown"
      = (run [RegOp.add "Alice" "example"] NewClientState, "", false) :=
  ⟨by decide,
    (GetNameByToken_after_Add_Remove NewClientState "Alice" "unknown"
      [RegOp.add "Alice" "example"]).2.2.1 (by decide)⟩

/-! ## Delivery channels -/

theorem trySend_of_lt (stream : List ResponseStream) (s : ResponseStream)
    (h : stream.length < 100) : trySend stream s = stream ++ [s] := by
  simp [trySend, h]

theorem trySend_of_ge (stream : List ResponseStream) (s : ResponseStream)
    (h : 100 ≤ stream.length) : trySend stream s = stream := by
  have : ¬ stream.length < 100 := by omega
  simp [trySend, this]

theorem trySend_sublist (stream : List ResponseStream) (s : ResponseStream) :
    List.Sublist (trySend stream s) (stream ++ [s]) := by
  unfold trySend
  split_ifs
  · exact List.Sublist.refl _
  · exact List.sublist_append_left _ _

/-- C5. With every delivery channel a list of at most 100 events, in every
registry state `Broadcast(e)` appends `e` to every registered channel that
holds fewer than 100 events, leaves every registered channel that holds 100
unchanged, registers and unregisters nothing, and touches neither `Tokens` nor
`Names`.  When `full` is the one registered channel that holds 100 events,
every other registered channel receives `e` and `full` alone drops it. -/
theorem Broadcast_delivers_or_drops (c : ClientsState) (e : ResponseStream) :
    (∀ token stream, c.Streams token = some stream → stream.length < 100 →
      (Broadcast c e).Streams token = some (stream ++ [e])) ∧
    (∀ token stream, c.Streams token = some stream → stream.length = 100 →
      (Broadcast c e).Streams token = some stream) ∧
    (∀ token, (Broadcast c e).Streams token = none ↔ c.Streams token = none) ∧
    (Broadcast c e).Tokens = c.Tokens ∧
    (Broadcast c e).Names = c.Names ∧
    (∀ full : String,
      (∀ token stream, c.Streams token = some stream →
        stream.length ≤ 100 ∧ (stream.length = 100 ↔ token = full)) →
      ∀ token stream, c.Streams token = some stream →
        (Broadcast c e).Streams token
          = some (if token = full then stream else stream ++ [e])) := by
  refine ⟨?_, ?_, ?_, rfl, rfl, ?_⟩
  · intro token stream h hl
    simp [Broadcast, h, trySend_of_lt stream e hl]
  · intro token stream h hl
    simp [Broadcast, h, trySend_of_ge stream e (le_of_eq hl.symm)]
  · intro token
    simp [Broadcast]
  · intro full hfull token stream h
    obtain ⟨hle, hiff⟩ := hfull token stream h
    by_cases ht : token = full
    · have hl : stream.length = 100 := hiff.2 ht
      subst ht
      simp [Broadcast, h, trySend_of_ge stream e (le_of_eq hl.symm)]
    · have hl : stream.length < 100 := by
        have : stream.length ≠ 100 := fun e => ht (hiff.1 e)
        omega
      simp [Broadcast, h, ht, trySend_of_lt stream e hl]

theorem Broadcast_delivers_or_drops_witness :
    (∀ token stream,
      ({ Tokens := fun _ => none, Names := fun _ => none,
         Streams := Function.update (Function.update (fun _ => none) "slow"
           (some (List.replicate 100 ⟨7, Event.ServerShutdown⟩))) "fast" (some []) }
        : ClientsState).Streams token = some stream →
      stream.length ≤ 100 ∧ (stream.length = 100 ↔ token = "slow")) ∧
    (Broadcast
        { Tokens := fun _ => none, Names := fun _ => none,
          Streams := Function.update (Function.update (fun _ => none) "slow"
            (some (List.replicate 100 ⟨7, Event.ServerShutdown⟩))) "fast" (some []) }
        ⟨8, Event.ClientLogin "Alice"⟩).Streams "fast"
      = some (if "fast" = "slow" then [] else [] ++ [⟨8, Event.ClientLogin "Alice"⟩]) ∧
    (Broadcast
        { Tokens := fun _ => none, Names := fun _ => none,
          Streams := Function.update (Function.update (fun _ => none) "slow"
            (some (List.replicate 100 ⟨7, Event.ServerShutdown⟩))) "fast" (some []) }
        ⟨8, Event.ClientLogin "Alice"⟩).Streams "slow"
      = some (if "slow" = "slow" then List.replicate 100 ⟨7, Event.ServerShutdown⟩
          else List.replicate 100 ⟨7, Event.ServerShutdown⟩
            ++ [⟨8, Event.ClientLogin "Alice"⟩]) := by
  have hstate : ∀ token stream,
      ({ Tokens := fun _ => none, Names := fun _ => none,
         Streams := Function.update (Function.update (fun _ => none) "slow"
           (some (List.replicate 100 ⟨7, Event.ServerShutdown⟩))) "fast" (some []) }
        : ClientsState).Streams token = some stream →
      stream.length ≤ 100 ∧ (stream.length = 100 ↔ token = "slow") := by
    intro token stream h
    by_cases h1 : token = "fast"
    · subst h1
      simp only [Function.update_same, Option.some.injEq] at h
      subst h
      simp
    · by_cases h2 : token = "slow"
      · subst h2
        simp only [Function.update_noteq h1, Function.update_same, Option.some.injEq] at h
        subst h
        simp
      · simp [Function.update_noteq h1, Function.update_noteq h2] at h
  exact ⟨hstate,
    (Broadcast_delivers_or_drops _ ⟨8, Event.ClientLogin "Alice"⟩).2.2.2.2.2 "slow" hstate
      "fast" [] (by simp [Function.update_same]),
    (Broadcast_delivers_or_drops _ ⟨8, Event.ClientLogin "Alice"⟩).2.2.2.2.2 "slow" hstate
      "slow" _ (by simp [Function.update])⟩

/-- C7. In every registry state: `CloseStream` of a token without a registered
channel leaves the state as it was; two `CloseStream` calls in a row give the
state one call gives; and `CloseStream` of a token removes its entry from
`Streams` and leaves the entry of every other token, and the maps `Tokens` and
`Names`, as they were. -/
theorem CloseStream_removes_one_entry (c : ClientsState) (token : String) :
    (c.Streams token = none → CloseStream c token = c) ∧
    CloseStream (CloseStream c token) token = CloseStream c token ∧
    (CloseStream c token).Streams token = none ∧
    (∀ other : String, other ≠ token →
      (CloseStream c token).Streams other = c.Streams other) ∧
    (CloseStream c token).Tokens = c.Tokens ∧
    (CloseStream c token).Names = c.Names := by
  have hnone : ∀ d : ClientsState, d.Streams token = none → CloseStream d token = d := by
    intro d h
    simp [CloseStream, h]
  have hat : (CloseStream c token).Streams token = none := by
    unfold CloseStream
    cases h : c.Streams token with
    | none => simpa using h
    | some stream => simp
  refine ⟨hnone c, hnone _ hat, hat, ?_, ?_, ?_⟩
  · intro other ho
    unfold CloseStream
    cases h : c.Streams token with
    | none => rfl
    | some stream => simp [Function.update_noteq ho]
  · unfold CloseStream
    cases h : c.Streams token <;> rfl
  · unfold CloseStream
    cases h : c.Streams token <;> rfl

theorem CloseStream_removes_one_entry_witness :
    (AddStream NewClientState "example").1.Streams "example2" = none ∧
    CloseStream (AddStream NewClientState "example").1 "example2"
      = (AddStream NewClientState "example").1 :=
  ⟨by decide,
    (CloseStream_removes_one_entry (AddStream NewClientState "example").1 "example2").1
      (by decide)⟩

/-! ## Order of delivery -/

theorem dequeue_Streams_ne (c : ClientsState) (t token : String) (h : t ≠ token) :
    (dequeue c t).1.Streams token = c.Streams token := by
  unfold dequeue
  split
  · simp [Function.update_noteq (Ne.symm h)]
  · rfl

theorem delivered_sublist_aux (token : String) (ops : List StreamOp) :
    ∀ (c : ClientsState) (stream : List ResponseStream),
      c.Streams token = some stream → staysOpen token ops = true →
      ∃ rest, (runStream ops c).Streams token = some rest ∧
        List.Sublist (delivered token ops c ++ rest) (stream ++ published ops) := by
  induction ops with
  | nil =>
    intro c stream h _
    exact ⟨stream, h, by simp [delivered, published]⟩
  | cons op ops ih =>
    intro c stream h hopen
    cases op with
    | broadcast s =>
      have h1 : (Broadcast c s).Streams token = some (trySend stream s) := by
        simp [Broadcast, h]
      obtain ⟨rest, hr, hs⟩ := ih (Broadcast c s) (trySend stream s) h1
        (by simpa [staysOpen] using hopen)
      refine ⟨rest, hr, ?_⟩
      have h2 : List.Sublist (trySend stream s ++ published ops)
          (stream ++ [s] ++ published ops) :=
        List.Sublist.append (trySend_sublist stream s) (List.Sublist.refl _)
      have h3 := hs.trans h2
      simpa [delivered, published, StreamOp.apply] using h3
    | dequeue t =>
      have hopen1 : staysOpen token ops = true := by simpa [staysOpen] using hopen
      by_cases ht : t = token
      · subst ht
        cases stream with
        | nil =>
          have h1 : dequeue c t = (c, none) := by simp [dequeue, h]
          obtain ⟨rest, hr, hs⟩ := ih c [] h hopen1
          refine ⟨rest, ?_, ?_⟩
          · simpa [runStream, StreamOp.apply, h1] using hr
          · simpa [delivered, published, h1] using hs
        | cons res more =>
          have h1 : dequeue c t =
              ({ c with Streams := Function.update c.Streams t (some more) }, some res) := by
            simp [dequeue, h]
          obtain ⟨rest, hr, hs⟩ :=
            ih { c with Streams := Function.update c.Streams t (some more) } more
              (by simp) hopen1
          refine ⟨rest, ?_, ?_⟩
          · simpa [runStream, StreamOp.apply, h1] using hr
          · simpa [delivered, published, h1] using hs
      · obtain ⟨rest, hr, hs⟩ := ih (dequeue c t).1 stream
          (by rw [dequeue_Streams_ne c t token ht]; exact h) hopen1
        refine ⟨rest, ?_, ?_⟩
        · simpa [runStream, StreamOp.apply] using hr
        · simpa [delivered, published, ht] using hs
    | addStream t =>
      simp only [staysOpen, Bool.and_eq_true, decide_eq_true_eq] at hopen
      obtain ⟨rest, hr, hs⟩ := ih (AddStream c t).1 stream
        (by simp [AddStream, Function.update_noteq (Ne.symm hopen.1), h]) hopen.2
      refine ⟨rest, ?_, ?_⟩
      · simpa [runStream, StreamOp.apply] using hr
      · simpa [delivered, published, StreamOp.apply] using hs
    | closeStream t =>
      simp only [staysOpen, Bool.and_eq_true, decide_eq_true_eq] at hopen
      have h1 : (CloseStream c t).Streams token = some stream := by
        unfold CloseStream
        cases c.Streams t with
        | none => exact h
        | some _ => simp [Function.update_noteq (Ne.symm hopen.1), h]
      obtain ⟨rest, hr, hs⟩ := ih (CloseStream c t) stream h1 hopen.2
      refine ⟨rest, ?_, ?_⟩
      · simpa [runStream, StreamOp.apply] using hr
      · simpa [delivered, published, StreamOp.apply] using hs

/-- C6. For every sequence of broadcasts, receives and openings and closings
of other tokens' channels (each an atomic step on the recipient's channel), run
from a state in which the recipient's channel is
registered and in which no step opens or closes that channel: the events the
recipient receives, in the order received, are a subsequence of the events
already in its channel followed by the broadcast events in publish order.  For
a channel just opened by `AddStream` they are a subsequence of the broadcast
events alone, and when those are pairwise different no event is received
twice. -/
theorem delivery_in_publish_order (c : ClientsState) (token : String)
    (stream : List ResponseStream) (ops : List StreamOp)
    (hreg : c.Streams token = some stream) (hopen : staysOpen token ops = true) :
    List.Sublist (delivered token ops c) (stream ++ published ops) ∧
    List.Sublist (delivered token ops (AddStream c token).1) (published ops) ∧
    ((published ops).Nodup → (delivered token ops (AddStream c token).1).Nodup) := by
  obtain ⟨rest, _, hs⟩ := delivered_sublist_aux token ops c stream hreg hopen
  have hfresh : (AddStream c token).1.Streams token = some [] := by
    simp [AddStream]
  obtain ⟨rest2, _, hs2⟩ := delivered_sublist_aux token ops (AddStream c token).1 [] hfresh hopen
  have h1 : List.Sublist (delivered token ops c) (stream ++ published ops) :=
    (List.sublist_append_left _ rest).trans hs
  have h2 : List.Sublist (delivered token ops (AddStream c token).1) (published ops) := by
    simpa using (List.sublist_append_left _ rest2).trans hs2
  exact ⟨h1, h2, fun hn => hn.sublist h2⟩

theorem delivery_in_publish_order_witness :
    (AddStream NewClientState "example").1.Streams "example" = some [] ∧
    staysOpen "example"
      [StreamOp.broadcast ⟨1, Event.ClientLogin "Alice"⟩, StreamOp.addStream "example2",
        StreamOp.broadcast ⟨2, Event.ClientMessage "Alice" "hello"⟩,
        StreamOp.dequeue "example", StreamOp.dequeue "example"] = true ∧
    (List.Sublist
      (delivered "example"
        [StreamOp.broadcast ⟨1, Event.ClientLogin "Alice"⟩, StreamOp.addStream "example2",
          StreamOp.broadcast ⟨2, Event.ClientMessage "Alice" "hello"⟩,
          StreamOp.dequeue "example", StreamOp.dequeue "example"]
        (AddStream NewClientState "example").1)
      ([] ++ published
        [StreamOp.broadcast ⟨1, Event.ClientLogin "Alice"⟩, StreamOp.addStream "example2",
          StreamOp.broadcast ⟨2, Event.ClientMessage "Alice" "hello"⟩,
          StreamOp.dequeue "example", StreamOp.dequeue "example"]) ∧
    List.Sublist
      (delivered "example"
        [StreamOp.broadcast ⟨1, Event.ClientLogin "Alice"⟩, StreamOp.addStream "example2",
          StreamOp.broadcast ⟨2, Event.ClientMessage "Alice" "hello"⟩,
          StreamOp.dequeue "example", StreamOp.dequeue "example"]
        (AddStream (AddStream NewClientState "example").1 "example").1)
      (published
        [StreamOp.broadcast ⟨1, Event.ClientLogin "Alice"⟩, StreamOp.addStream "example2",
          StreamOp.broadcast ⟨2, Event.ClientMessage "Alice" "hello"⟩,
          StreamOp.dequeue "example", StreamOp.dequeue "example"]) ∧
    ((published
        [StreamOp.broadcast ⟨1, Event.ClientLogin "Alice"⟩, StreamOp.addStream "example2",
          StreamOp.broadcast ⟨2, Event.ClientMessage "Alice" "hello"⟩,
          StreamOp.dequeue "example", StreamOp.dequeue "example"]).Nodup →
      (delivered "example"
        [StreamOp.broadcast ⟨1, Event.ClientLogin "Alice"⟩, StreamOp.addStream "example2",
          StreamOp.broadcast ⟨2, Event.ClientMessage "Alice" "hello"⟩,
          StreamOp.dequeue "example", StreamOp.dequeue "example"]
        (AddStream (AddStream NewClientState "example").1 "example").1).Nodup)) :=
  ⟨by decide, by decide,
    delivery_in_publish_order (AddStream NewClientState "example").1 "example" []
      [StreamOp.broadcast ⟨1, Event.ClientLogin "Alice"⟩, StreamOp.addStream "example2",
        StreamOp.broadcast ⟨2, Event.ClientMessage "Alice" "hello"⟩,
        StreamOp.dequeue "example", StreamOp.dequeue "example"]
      (by decide) (by decide)⟩

/-! ## The registry invariant -/

theorem tokenSet_Add (c : ClientsState) (name token n : String) :
    tokenSet (Add c name token).1 n
      = if n = name then insert token (tokenSet c name) else tokenSet c n := by
  by_cases h : n = name
  · subst h
    simp [tokenSet, Add_Names]
  · simp only [h, if_false]
    unfold tokenSet
    rw [Add_Names, Function.update_noteq h]

theorem tokenSet_Remove_registered (c : ClientsState) (token name : String)
    (set : Finset String) (hT : c.Tokens token = some name) (hN : c.Names name = some set)
    (hm : token ∈ set) (n : String) :
    tokenSet (Remove c token).1 n
      = if n = name then set.erase token else tokenSet c n := by
  rw [Remove_registered c token name set hT hN hm]
  by_cases h : n = name
  · subst h
    by_cases hc : 0 < (set.erase token).card
    · simp [tokenSet, hc]
    · have : set.erase token = ∅ := Finset.card_eq_zero.1 (by omega)
      simp [tokenSet, hc, this]
  · simp only [h, if_false]
    unfold tokenSet
    simp only [Function.update_noteq h]

theorem RegistryInvariant_of (c : ClientsState) (h1 : NamesNonempty c)
    (h2 : ∀ token n, token ∈ tokenSet c n ↔ c.Tokens token = some n) :
    RegistryInvariant c := by
  refine ⟨?_, h2, ?_⟩
  · intro token n m hn hm
    have e1 := (h2 token n).1 hn
    have e2 := (h2 token m).1 hm
    rw [e1] at e2
    exact Option.some.inj e2
  · intro n
    cases hN : c.Names n with
    | none => simp [tokenSet, hN]
    | some set => simpa [tokenSet, hN] using h1 n set hN

theorem RegistryInvariant_New : RegistryInvariant NewClientState :=
  RegistryInvariant_of _ NamesNonempty_New (by intro token n; simp [tokenSet, NewClientState])

theorem NamesNonempty_of_RegistryInvariant (c : ClientsState) (h : RegistryInvariant c) :
    NamesNonempty c := by
  intro name set hN
  have := (h.2.2 name).1 (by simp [hN])
  simpa [tokenSet, hN] using this

theorem TokensInNames_of_RegistryInvariant (c : ClientsState) (h : RegistryInvariant c) :
    TokensInNames c := fun token name ht => (h.2.1 token name).2 ht

theorem RegistryInvariant_Add (c : ClientsState) (name token : String)
    (h : RegistryInvariant c) (hg : c.Tokens token = none ∨ c.Tokens token = some name) :
    RegistryInvariant (Add c name token).1 := by
  apply RegistryInvariant_of
  · exact NamesNonempty_Add c name token (NamesNonempty_of_RegistryInvariant c h)
  · intro t n
    rw [tokenSet_Add, Add_Tokens]
    by_cases hn : n = name
    · subst hn
      by_cases ht : t = token
      · subst ht; simp
      · simp [ht, Function.update_noteq ht, h.2.1 t n]
    · by_cases ht : t = token
      · subst ht
        have hne : ¬ name = n := fun e => hn e.symm
        simp only [hn, if_false, Function.update_same, Option.some.injEq, hne, iff_false]
        intro hmem
        have := (h.2.1 t n).1 hmem
        rcases hg with hg | hg
        · rw [hg] at this; cases this
        · rw [hg] at this; exact hne (Option.some.inj this)
      · simp [hn, Function.update_noteq ht, h.2.1 t n]

theorem RegistryInvariant_Remove (c : ClientsState) (token : String)
    (h : RegistryInvariant c) : RegistryInvariant (Remove c token).1 := by
  have hne := NamesNonempty_of_RegistryInvariant c h
  have hin := TokensInNames_of_RegistryInvariant c h
  apply RegistryInvariant_of
  · exact (invariants_Remove c token hne hin).1
  · cases hT : c.Tokens token with
    | none => rw [Remove_of_none c token hT]; exact h.2.1
    | some name =>
      obtain ⟨set, hN, hm⟩ := (mem_tokenSet_iff c name token).1 (hin token name hT)
      intro t n
      rw [tokenSet_Remove_registered c token name set hT hN hm, Remove_Tokens]
      have hset : tokenSet c name = set := tokenSet_of_some hN
      by_cases ht : t = token
      · subst ht
        by_cases hn : n = name
        · simp [hn]
        · have hne2 : ¬ name = n := fun e => hn e.symm
          simp only [hn, if_false, Function.update_same]
          constructor
          · intro hmem
            have := (h.2.1 t n).1 hmem
            rw [hT] at this
            exact absurd (Option.some.inj this) hne2
          · intro e
            cases e
      · rw [Function.update_noteq ht]
        by_cases hn : n = name
        · subst hn
          simp only [if_true, Finset.mem_erase, ne_eq, ht, not_false_eq_true, true_and]
          rw [← hset]
          exact h.2.1 t n
        · simp only [hn, if_false]
          exact h.2.1 t n

theorem RegistryInvariant_run (ops : List RegOp) (c : ClientsState)
    (h : RegistryInvariant c) (hg : addsKeepName ops c = true) :
    RegistryInvariant (run ops c) := by
  induction ops generalizing c with
  | nil => exact h
  | cons op ops ih =>
    cases op with
    | add name token =>
      simp only [addsKeepName, Bool.and_eq_true, Bool.or_eq_true, decide_eq_true_eq] at hg
      exact ih _ (RegistryInvariant_Add c name token h hg.1) hg.2
    | remove token =>
      simp only [addsKeepName] at hg
      exact ih _ (RegistryInvariant_Remove c token h) hg

theorem addsKeepName_take (ops : List RegOp) (k : Nat) (c : ClientsState)
    (hg : addsKeepName ops c = true) : addsKeepName (ops.take k) c = true := by
  induction ops generalizing c k with
  | nil => simp [addsKeepName]
  | cons op ops ih =>
    cases k with
    | zero => simp [addsKeepName]
    | succ k =>
      cases op with
      | add name token =>
        simp only [addsKeepName, Bool.and_eq_true] at hg
        simp only [List.take_succ_cons, addsKeepName, Bool.and_eq_true]
        exact ⟨hg.1, ih k _ hg.2⟩
      | remove token =>
        simp only [addsKeepName] at hg
        simp only [List.take_succ_cons, addsKeepName]
        exact ih k _ hg

theorem addsKeepName_of_RegistryInvariant (ops : List RegOp) (c : ClientsState)
    (h : ∀ k, RegistryInvariant (run (ops.take k) c)) : addsKeepName ops c = true := by
  induction ops generalizing c with
  | nil => rfl
  | cons op ops ih =>
    have h0 : RegistryInvariant c := h 0
    have hrest : ∀ k, RegistryInvariant (run (ops.take k) (op.apply c)) := fun k => h (k + 1)
    cases op with
    | add name token =>
      simp only [addsKeepName, Bool.and_eq_true, Bool.or_eq_true, decide_eq_true_eq]
      refine ⟨?_, ih _ hrest⟩
      cases hT : c.Tokens token with
      | none => exact Or.inl rfl
      | some other =>
        right
        have h1 : RegistryInvariant (Add c name token).1 := hrest 0
        have m1 : token ∈ tokenSet (Add c name token).1 name := by
          rw [tokenSet_Add]; simp
        have m2 : token ∈ tokenSet (Add c name token).1 other := by
          rw [tokenSet_Add]
          by_cases ho : other = name
          · simp [ho]
          · simp only [ho, if_false]
            exact (h0.2.1 token other).2 hT
        rw [h1.1 token name other m1 m2]
    | remove token => exact ih _ hrest

/-- C8, as the code has it.  For every sequence of `Add` and `Remove` calls on
a new registry in which no `Add` is called with a token that is at that moment
registered under another name, the registry invariant holds in every state
reached on the way (the state after the first `k` calls, for every `k`): a
token is in the token set of at most one name, it is in the token set of a name
exactly when `Tokens` maps it to that name, and a name is a key of `Names`
exactly when its token set is non-empty. -/
theorem registry_invariant_of_addsKeepName (ops : List RegOp) (k : Nat)
    (h : addsKeepName ops NewClientState = true) :
    RegistryInvariant (run (ops.take k) NewClientState) :=
  RegistryInvariant_run _ _ RegistryInvariant_New (addsKeepName_take ops k _ h)

theorem registry_invariant_of_addsKeepName_witness :
    addsKeepName
      [RegOp.add "Alice" "Example", RegOp.add "Alice" "Example", RegOp.add "Alice" "Example2",
        RegOp.add "Bob" "Example3", RegOp.remove "Example"] NewClientState = true ∧
    RegistryInvariant
      (run (List.take 5
        [RegOp.add "Alice" "Example", RegOp.add "Alice" "Example", RegOp.add "Alice" "Example2",
          RegOp.add "Bob" "Example3", RegOp.remove "Example"]) NewClientState) :=
  ⟨by decide,
    registry_invariant_of_addsKeepName
      [RegOp.add "Alice" "Example", RegOp.add "Alice" "Example", RegOp.add "Alice" "Example2",
        RegOp.add "Bob" "Example3", RegOp.remove "Example"] 5 (by decide)⟩

/-- C8 as stated fails: after `Add("Alice", "Example")` and
`Add("Bob", "Example")` the token is in the token sets of both names while
`Tokens` maps it to `"Bob"` only, so the registry invariant does not hold. -/
theorem registry_invariant_fails_on_renamed_token :
    "Example" ∈ tokenSet
        (run [RegOp.add "Alice" "Example", RegOp.add "Bob" "Example"] NewClientState) "Alice" ∧
    "Example" ∈ tokenSet
        (run [RegOp.add "Alice" "Example", RegOp.add "Bob" "Example"] NewClientState) "Bob" ∧
    (run [RegOp.add "Alice" "Example", RegOp.add "Bob" "Example"] NewClientState).Tokens
        "Example" = some "Bob" ∧
    ¬ RegistryInvariant
        (run [RegOp.add "Alice" "Example", RegOp.add "Bob" "Example"] NewClientState) := by
  have h1 : "Example" ∈ tokenSet
      (run [RegOp.add "Alice" "Example", RegOp.add "Bob" "Example"] NewClientState) "Alice" := by
    decide
  have h2 : "Example" ∈ tokenSet
      (run [RegOp.add "Alice" "Example", RegOp.add "Bob" "Example"] NewClientState) "Bob" := by
    decide
  refine ⟨h1, h2, by decide, ?_⟩
  intro h
  have e := h.1 "Example" "Alice" "Bob" h1 h2
  exact absurd e (by decide)

/-! ## The handlers -/

theorem Login_empty (s : Server) (token : String) (now : Nat) :
    Login s "" token now = (s, Reply.error Code.InvalidArgument "name is required") := by
  simp [Login]

theorem Login_fst (s : Server) (name token : String) (now : Nat) (h : name ≠ "") :
    (Login s name token now).1 =
      { s with
        Clients := (Add s.Clients name token).1,
        Broadcast := s.Broadcast ++
          (if (s.Clients.Names name).isNone then [⟨now, Event.ClientLogin name⟩] else []) } := by
  unfold Login
  rw [if_neg h]
  dsimp only
  rw [Add_snd]
  cases (s.Clients.Names name).isNone <;> simp

theorem Logout_Clients (s : Server) (token : String) (now : Nat) :
    (Logout s token now).1.Clients = (Remove s.Clients token).1 := by
  unfold Logout
  dsimp only
  split_ifs <;> rfl

theorem Logout_Broadcast (s : Server) (token : String) (now : Nat) :
    (Logout s token now).1.Broadcast = s.Broadcast ++
      (if (Remove s.Clients token).2.2 then
        [⟨now, Event.ClientLogout (Remove s.Clients token).2.1⟩] else []) := by
  unfold Logout
  dsimp only
  cases h : (Remove s.Clients token).2.2 <;> by_cases h2 : (Remove s.Clients token).2.1 = "" <;>
    simp [h2]

theorem alternatesFrom_append (name : String) (l : List Event) (b : Bool) (e : Event) :
    alternatesFrom name b (l ++ [e])
      = (alternatesFrom name b l &&
          alternatesFrom name (if l.length % 2 = 0 then b else !b) [e]) := by
  induction l generalizing b with
  | nil => simp [alternatesFrom]
  | cons x xs ih =>
    have hpar : (if (x :: xs).length % 2 = 0 then b else !b)
        = (if xs.length % 2 = 0 then !b else !(!b)) := by
      simp only [List.length_cons, Bool.not_not]
      by_cases hp : xs.length % 2 = 0
      · have : ¬ (xs.length + 1) % 2 = 0 := by omega
        simp [hp, this]
      · have : (xs.length + 1) % 2 = 0 := by omega
        simp [hp, this]
    rw [hpar]
    cases b
    · rw [List.cons_append]
      simp only [alternatesFrom]
      rw [ih true]
      simp [Bool.and_assoc]
    · rw [List.cons_append]
      simp only [alternatesFrom]
      rw [ih false]
      simp [Bool.and_assoc]

theorem eventsFor_append (name : String) (log : List ResponseStream) (r : ResponseStream) :
    eventsFor name (log ++ [r])
      = eventsFor name log ++
        (if r.Event = Event.ClientLogin name ∨ r.Event = Event.ClientLogout name
          then [r.Event] else []) := by
  unfold eventsFor
  rw [List.map_append, List.filter_append]
  by_cases h : r.Event = Event.ClientLogin name ∨ r.Event = Event.ClientLogout name
  · simp [List.filter, h]
  · simp [List.filter, h]

theorem removeClientToken_online (c : ClientsState) (name token n : String) :
    ((removeClientToken c name token).1.Names n).isSome
        = ((c.Names n).isSome &&
            !((removeClientToken c name token).2 && decide (name = n))) ∧
    ((removeClientToken c name token).2 = true → (c.Names name).isSome = true) := by
  unfold removeClientToken
  cases hN : c.Names name with
  | none => simp
  | some set =>
    dsimp only
    by_cases hm : token ∈ set
    · by_cases hc : (set.erase token).card > 0
      · simp only [hm, hc, if_true]
        by_cases hn : n = name
        · subst hn; simp [hN]
        · simp [Function.update_noteq hn]
      · simp only [hm, hc, if_true, if_false]
        by_cases hn : n = name
        · subst hn; simp
        · have : ¬ name = n := fun e => hn e.symm
          simp [Function.update_noteq hn, this]
    · simp [hm]

theorem Remove_online (c : ClientsState) (token n : String) :
    ((Remove c token).1.Names n).isSome
        = ((c.Names n).isSome &&
            !((Remove c token).2.2 && decide ((Remove c token).2.1 = n))) ∧
    ((Remove c token).2.2 = true → (c.Names (Remove c token).2.1).isSome = true) := by
  cases hT : c.Tokens token with
  | none => rw [Remove_of_none c token hT]; simp
  | some name =>
    rw [Remove_of_some c token name hT]
    exact removeClientToken_online { c with Tokens := Function.update c.Tokens token none }
      name token n

theorem LogInvariant_Login (n : String) (s : Server) (name token : String) (now : Nat)
    (h : LogInvariant n s) : LogInvariant n (Login s name token now).1 := by
  by_cases he : name = ""
  · subst he; rw [Login_empty]; exact h
  rw [Login_fst s name token now he]
  unfold LogInvariant at h ⊢
  dsimp only
  rw [Add_Names]
  by_cases hn : n = name
  · subst hn
    rw [Function.update_same]
    cases hN : s.Clients.Names n with
    | none =>
      have hev : (eventsFor n s.Broadcast).length % 2 = 0 := by
        have := h.2
        rw [hN] at this
        simp only [Option.isSome_none, Bool.false_eq_true, false_iff] at this
        omega
      simp only [Option.isNone_none, if_true, eventsFor_append, true_or,
        alternatesFrom_append, hev, List.length_append, List.length_singleton]
      refine ⟨?_, ?_⟩
      · simp [h.1, alternatesFrom]
      · simp; omega
    | some set =>
      rw [hN] at h
      simpa using h
  · rw [Function.update_noteq hn]
    have hne : ¬ name = n := fun e => hn e.symm
    cases hN : (s.Clients.Names name).isNone with
    | false => simpa using h
    | true =>
      simp only [if_true, eventsFor_append, Event.ClientLogin.injEq, hne, false_or,
        reduceCtorEq, if_false, List.append_nil]
      exact h

theorem LogInvariant_Logout (n : String) (s : Server) (token : String) (now : Nat)
    (h : LogInvariant n s) : LogInvariant n (Logout s token now).1 := by
  unfold LogInvariant at h ⊢
  rw [Logout_Clients, Logout_Broadcast, (Remove_online s.Clients token n).1]
  cases hr : (Remove s.Clients token).2.2 with
  | false => simpa using h
  | true =>
    have hon := (Remove_online s.Clients token n).2 hr
    by_cases hn : (Remove s.Clients token).2.1 = n
    · rw [hn] at hon
      have hodd : (eventsFor n s.Broadcast).length % 2 = 1 := h.2.1 hon
      have hne : ¬ (eventsFor n s.Broadcast).length % 2 = 0 := by omega
      simp only [if_true, eventsFor_append, hn, or_true, alternatesFrom_append, hne, if_false,
        List.length_append, List.length_singleton]
      refine ⟨?_, ?_⟩
      · simp [h.1, alternatesFrom]
      · simp; omega
    · simp only [if_true, eventsFor_append, Event.ClientLogout.injEq, hn, or_false,
        reduceCtorEq, if_false, List.append_nil, decide_False, Bool.and_false, Bool.not_false,
        Bool.and_true]
      exact h

theorem NamesNotEmptyString_Add (c : ClientsState) (name token : String)
    (h : NamesNotEmptyString c) (hne : name ≠ "") : NamesNotEmptyString (Add c name token).1 := by
  intro t n ht
  rw [Add_Tokens] at ht
  by_cases htt : t = token
  · subst htt
    rw [Function.update_same] at ht
    cases ht
    exact hne
  · rw [Function.update_noteq htt] at ht
    exact h t n ht

theorem NamesNotEmptyString_Remove (c : ClientsState) (token : String)
    (h : NamesNotEmptyString c) : NamesNotEmptyString (Remove c token).1 := by
  intro t n ht
  rw [Remove_Tokens] at ht
  by_cases htt : t = token
  · subst htt
    simp at ht
  · rw [Function.update_noteq htt] at ht
    exact h t n ht

theorem ServerInvariant_Login (s : Server) (name token : String) (now : Nat)
    (h : ServerInvariant s) : ServerInvariant (Login s name token now).1 := by
  obtain ⟨h1, h2, h3, h4⟩ := h
  by_cases he : name = ""
  · subst he
    refine ⟨?_, ?_, ?_, fun n => LogInvariant_Login n s "" token now (h4 n)⟩
    · rw [Login_empty]; exact h1
    · rw [Login_empty]; exact h2
    · rw [Login_empty]; exact h3
  · refine ⟨?_, ?_, ?_, fun n => LogInvariant_Login n s name token now (h4 n)⟩
    · rw [Login_fst s name token now he]
      exact NamesNonempty_Add _ name token h1
    · rw [Login_fst s name token now he]
      exact TokensInNames_Add _ name token h2
    · rw [Login_fst s name token now he]
      exact NamesNotEmptyString_Add _ name token h3 he

theorem ServerInvariant_Logout (s : Server) (token : String) (now : Nat)
    (h : ServerInvariant s) : ServerInvariant (Logout s token now).1 := by
  obtain ⟨h1, h2, h3, h4⟩ := h
  refine ⟨?_, ?_, ?_, fun n => LogInvariant_Logout n s token now (h4 n)⟩
  · rw [Logout_Clients]; exact (invariants_Remove _ token h1 h2).1
  · rw [Logout_Clients]; exact (invariants_Remove _ token h1 h2).2
  · rw [Logout_Clients]; exact NamesNotEmptyString_Remove _ token h3

theorem ServerInvariant_serve (calls : List Call) (s : Server) (h : ServerInvariant s) :
    ServerInvariant (serve calls s) := by
  induction calls generalizing s with
  | nil => exact h
  | cons call calls ih =>
    cases call with
    | login name token now => exact ih _ (ServerInvariant_Login s name token now h)
    | logout token now => exact ih _ (ServerInvariant_Logout s token now h)

theorem ServerInvariant_NewServer (addr : String) (allowDebug : Bool) (s0 : Server)
    (h : NewServer addr allowDebug = some s0) : ServerInvariant s0 := by
  unfold NewServer at h
  by_cases ha : addr = ""
  · simp [ha] at h
  · simp only [ha, if_false, Option.some.injEq] at h
    subst h
    refine ⟨NamesNonempty_New, TokensInNames_New, ?_, ?_⟩
    · intro token name ht
      simp [NewClientState] at ht
    · intro name
      simp [LogInvariant, eventsFor, alternatesFrom, NewClientState]

theorem Login_publishes_iff_first (s : Server) (name token : String) (now : Nat)
    (h : ServerInvariant s) (hne : name ≠ "") :
    (Login s name token now).1.Broadcast = s.Broadcast ++
      (if sessions s.Clients name = 0 ∧ sessions (Login s name token now).1.Clients name = 1
        then [⟨now, Event.ClientLogin name⟩] else []) := by
  have hiff := Add_true_iff s.Clients name token h.1
  rw [Add_snd] at hiff
  rw [Login_fst s name token now hne]
  dsimp only
  by_cases hb : (s.Clients.Names name).isNone = true
  · rw [if_pos hb, if_pos (hiff.1 hb)]
  · rw [if_neg hb, if_neg (fun hc => hb (hiff.2 hc))]

theorem Logout_publishes_iff_last (s : Server) (token name : String) (now : Nat)
    (h : ServerInvariant s) (ht : s.Clients.Tokens token = some name) :
    (Logout s token now).1.Broadcast = s.Broadcast ++
      (if sessions s.Clients name = 1 ∧ sessions (Logout s token now).1.Clients name = 0
        then [⟨now, Event.ClientLogout name⟩] else []) := by
  obtain ⟨hname, _, hiff, _, _⟩ := Remove_last_iff s.Clients token name h.2.1 ht
  rw [Logout_Broadcast, Logout_Clients, hname]
  by_cases hb : (Remove s.Clients token).2.2 = true
  · rw [if_pos hb, if_pos (hiff.1 hb)]
  · rw [if_neg hb, if_neg (fun hc => hb (hiff.2 hc))]

theorem Logout_unknown (s : Server) (token : String) (now : Nat)
    (ht : s.Clients.Tokens token = none) :
    Logout s token now = (s, Reply.error Code.NotFound "Token not found") := by
  unfold Logout
  simp [Remove_of_none s.Clients token ht]

theorem Logout_known (s : Server) (token name : String) (now : Nat)
    (h : ServerInvariant s) (ht : s.Clients.Tokens token = some name) :
    (Logout s token now).2 = Reply.ok () := by
  obtain ⟨hname, _⟩ := Remove_last_iff s.Clients token name h.2.1 ht
  have hne : name ≠ "" := h.2.2.1 token name ht
  unfold Logout
  dsimp only
  rw [hname]
  cases (Remove s.Clients token).2.2 <;> simp [hne]

/-- C9. On a new server, after every sequence of `Login` and `Logout` calls
made one after another (whatever the tokens, so in particular when every login
gets a fresh one): the events published
for any one name are alternately a login and a logout event, starting with a
login; a `Login` with a non-empty name publishes the login event of the name
exactly when it takes the name from no session to one, and nothing otherwise; a
`Logout` of a token registered under a name publishes the logout event of that
name exactly when it takes the name from one session to none, and nothing
otherwise; a `Logout` of an unregistered token publishes nothing.  Two logins
of Alice followed by the two logouts publish one login event and then one
logout event. -/
theorem events_alternate_per_name (addr : String) (allowDebug : Bool) (s0 : Server)
    (calls : List Call) (h : NewServer addr allowDebug = some s0) :
    (∀ name, alternatesFrom name true (eventsFor name (serve calls s0).Broadcast) = true) ∧
    (∀ name token now, name ≠ "" →
      (Login (serve calls s0) name token now).1.Broadcast = (serve calls s0).Broadcast ++
        (if sessions (serve calls s0).Clients name = 0 ∧
            sessions (Login (serve calls s0) name token now).1.Clients name = 1
          then [⟨now, Event.ClientLogin name⟩] else [])) ∧
    (∀ token name now, (serve calls s0).Clients.Tokens token = some name →
      (Logout (serve calls s0) token now).1.Broadcast = (serve calls s0).Broadcast ++
        (if sessions (serve calls s0).Clients name = 1 ∧
            sessions (Logout (serve calls s0) token now).1.Clients name = 0
          then [⟨now, Event.ClientLogout name⟩] else [])) ∧
    (∀ token now, (serve calls s0).Clients.Tokens token = none →
      (Logout (serve calls s0) token now).1.Broadcast = (serve calls s0).Broadcast) ∧
    (serve [Call.login "Alice" "T1" 1, Call.login "Alice" "T2" 2, Call.logout "T1" 3,
        Call.logout "T2" 4] s0).Broadcast
      = [⟨1, Event.ClientLogin "Alice"⟩, ⟨4, Event.ClientLogout "Alice"⟩] := by
  have hinv := ServerInvariant_serve calls s0 (ServerInvariant_NewServer addr allowDebug s0 h)
  refine ⟨fun name => (hinv.2.2.2 name).1, ?_, ?_, ?_, ?_⟩
  · intro name token now hne
    exact Login_publishes_iff_first _ name token now hinv hne
  · intro token name now ht
    exact Logout_publishes_iff_last _ token name now hinv ht
  · intro token now ht
    rw [Logout_unknown _ token now ht]
  · unfold NewServer at h
    by_cases ha : addr = ""
    · simp [ha] at h
    · simp only [ha, if_false, Option.some.injEq] at h
      subst h
      exact of_decide_eq_true rfl

theorem events_alternate_per_name_witness :
    NewServer ":50051" false
      = some { Addr := ":50051", Clients := NewClientState, Broadcast := [] } ∧
    alternatesFrom "Alice" true
      (eventsFor "Alice"
        (serve [Call.login "Alice" "T1" 1, Call.login "Bob" "T2" 2, Call.logout "T1" 3,
            Call.login "Alice" "T3" 4]
          { Addr := ":50051", Clients := NewClientState, Broadcast := [] }).Broadcast) = true ∧
    (serve [Call.login "Alice" "T1" 1, Call.login "Alice" "T2" 2, Call.logout "T1" 3,
        Call.logout "T2" 4]
      { Addr := ":50051", Clients := NewClientState, Broadcast := [] }).Broadcast
      = [⟨1, Event.ClientLogin "Alice"⟩, ⟨4, Event.ClientLogout "Alice"⟩] :=
  ⟨rfl,
    (events_alternate_per_name ":50051" false
      { Addr := ":50051", Clients := NewClientState, Broadcast := [] }
      [Call.login "Alice" "T1" 1, Call.login "Bob" "T2" 2, Call.logout "T1" 3,
        Call.login "Alice" "T3" 4] rfl).1 "Alice",
    (events_alternate_per_name ":50051" false
      { Addr := ":50051", Clients := NewClientState, Broadcast := [] }
      [Call.login "Alice" "T1" 1, Call.login "Bob" "T2" 2, Call.logout "T1" 3,
        Call.login "Alice" "T3" 4] rfl).2.2.2.2⟩

/-- C10. On a new server, after every sequence of `Login` and `Logout` calls
made one after another: `Logout(token)` fails with `NotFound` exactly when the token is not registered
in `Tokens`; when it fails the server, registry and published events, is as it
was; and when the token is registered the call succeeds and the token is no
longer registered afterwards. -/
theorem Logout_fails_iff_unregistered (addr : String) (allowDebug : Bool) (s0 : Server)
    (calls : List Call) (token : String) (now : Nat)
    (h : NewServer addr allowDebug = some s0) :
    ((Logout (serve calls s0) token now).2 = Reply.error Code.NotFound "Token not found" ↔
      (serve calls s0).Clients.Tokens token = none) ∧
    ((serve calls s0).Clients.Tokens token = none →
      (Logout (serve calls s0) token now).1 = serve calls s0) ∧
    ((serve calls s0).Clients.Tokens token ≠ none →
      (Logout (serve calls s0) token now).2 = Reply.ok () ∧
      (Logout (serve calls s0) token now).1.Clients.Tokens token = none) := by
  have hinv := ServerInvariant_serve calls s0 (ServerInvariant_NewServer addr allowDebug s0 h)
  have hknown : ∀ name, (serve calls s0).Clients.Tokens token = some name →
      (Logout (serve calls s0) token now).2 = Reply.ok () :=
    fun name ht => Logout_known _ token name now hinv ht
  refine ⟨?_, ?_, ?_⟩
  · constructor
    · intro he
      cases ht : (serve calls s0).Clients.Tokens token with
      | none => rfl
      | some name =>
        rw [hknown name ht] at he
        cases he
    · intro ht
      rw [Logout_unknown _ token now ht]
  · intro ht
    rw [Logout_unknown _ token now ht]
  · intro ht
    cases hT : (serve calls s0).Clients.Tokens token with
    | none => exact absurd hT ht
    | some name =>
      refine ⟨hknown name hT, ?_⟩
      rw [Logout_Clients, Remove_Tokens, Function.update_same]

theorem Logout_fails_iff_unregistered_witness :
    NewServer ":50051" false
      = some { Addr := ":50051", Clients := NewClientState, Broadcast := [] } ∧
    (serve [Call.login "Alice" "T1" 1]
        { Addr := ":50051", Clients := NewClientState, Broadcast := [] }).Clients.Tokens "T1"
      ≠ none ∧
    (Logout (serve [Call.login "Alice" "T1" 1]
        { Addr := ":50051", Clients := NewClientState, Broadcast := [] }) "T1" 2).2
      = Reply.ok () ∧
    (Logout (serve [Call.login "Alice" "T1" 1]
        { Addr := ":50051", Clients := NewClientState, Broadcast := [] }) "T1" 2).1.Clients.Tokens
        "T1" = none :=
  ⟨rfl, by decide,
    (Logout_fails_iff_unregistered ":50051" false
      { Addr := ":50051", Clients := NewClientState, Broadcast := [] }
      [Call.login "Alice" "T1" 1] "T1" 2 rfl).2.2 (by decide)⟩

/-! ## The cases of the repository's tests -/

theorem test_ClientStateAdd :
    (Add NewClientState "Alice" "Example").2 = true ∧
    (Add (run [RegOp.add "Alice" "Example"] NewClientState) "Alice" "Example").2 = false ∧
    (Add (run [RegOp.add "Alice" "Example", RegOp.add "Alice" "Example"] NewClientState)
      "Alice" "Example2").2 = false ∧
    (Add (run [RegOp.add "Alice" "Example", RegOp.add "Alice" "Example",
      RegOp.add "Alice" "Example2"] NewClientState) "Bob" "Example3").2 = true := by
  decide

theorem test_ClientStateRemove :
    (Remove (run [RegOp.add "Alice" "example", RegOp.add "Alice" "example2",
      RegOp.add "Bob" "example3"] NewClientState) "example").2 = ("Alice", false) ∧
    (Remove (run [RegOp.add "Alice" "example", RegOp.add "Alice" "example2",
      RegOp.add "Bob" "example3", RegOp.remove "example"] NewClientState) "example5").2
      = ("", false) ∧
    (Remove (run [RegOp.add "Alice" "example", RegOp.add "Alice" "example2",
      RegOp.add "Bob" "example3", RegOp.remove "example", RegOp.remove "example5"]
      NewClientState) "example2").2 = ("Alice", true) ∧
    (Remove (run [RegOp.add "Alice" "example", RegOp.add "Alice" "example2",
      RegOp.add "Bob" "example3", RegOp.remove "example", RegOp.remove "example5",
      RegOp.remove "example2"] NewClientState) "example3").2 = ("Bob", true) ∧
    (Remove (run [RegOp.add "Alice" "example", RegOp.add "Alice" "example2",
      RegOp.add "Bob" "example3", RegOp.remove "example", RegOp.remove "example5",
      RegOp.remove "example2", RegOp.remove "example3"] NewClientState) "example").2
      = ("", false) := by
  decide

theorem test_ClientStateGetNameByToken :
    (GetNameByToken (run [RegOp.add "Alice" "example"] NewClientState) "unknown").2
      = ("", false) ∧
    (GetNameByToken (run [RegOp.add "Alice" "example"] NewClientState) "example").2
      = ("Alice", true) := by
  decide

/-! ## Stream sessions and the channel they own -/

namespace Refs

theorem forget_AddStream (c : ClientsState) (token : String) :
    forget (AddStream c token).1 = (server.AddStream (forget c) token).1 := by
  unfold forget AddStream server.AddStream
  simp only [server.ClientsState.mk.injEq, true_and]
  funext t
  by_cases h : t = token
  · subst h; simp
  · simp [Function.update_noteq h]

theorem forget_Broadcast (c : ClientsState) (s : ResponseStream) :
    forget (Broadcast c s) = server.Broadcast (forget c) s := by
  unfold forget Broadcast server.Broadcast
  simp only [server.ClientsState.mk.injEq, true_and]
  funext t
  cases c.Streams t <;> simp

theorem forget_CloseStream (c c2 : ClientsState) (token : String)
    (h : CloseStream c token = some c2) :
    forget c2 = server.CloseStream (forget c) token := by
  unfold CloseStream at h
  unfold forget server.CloseStream
  cases hs : c.Streams token with
  | none =>
    simp only [hs, Option.some.injEq] at h
    subst h
    simp [hs]
  | some entry =>
    obtain ⟨stream, buffered⟩ := entry
    simp only [hs] at h
    by_cases hc : stream ∈ c.closed
    · simp [hc] at h
    · simp only [hc, if_false, Option.some.injEq] at h
      subst h
      simp only [hs, Option.map_some', server.ClientsState.mk.injEq, true_and]
      funext t
      by_cases ht : t = token
      · subst ht; simp
      · simp [Function.update_noteq ht]

theorem StreamsInvariant_New : StreamsInvariant NewClientState := by
  refine ⟨?_, ?_⟩
  · intro stream h
    simp [NewClientState] at h
  · intro token stream buffered h
    simp [NewClientState] at h

theorem StreamsInvariant_AddStream (c : ClientsState) (token : String)
    (h : StreamsInvariant c) : StreamsInvariant (AddStream c token).1 := by
  obtain ⟨h1, h2⟩ := h
  refine ⟨?_, ?_⟩
  · intro stream hs
    have := h1 stream hs
    simp only [AddStream]
    omega
  · intro t stream buffered ht
    simp only [AddStream] at ht ⊢
    by_cases htt : t = token
    · subst htt
      rw [Function.update_same] at ht
      simp only [Option.some.injEq, Prod.mk.injEq] at ht
      obtain ⟨e1, _⟩ := ht
      subst e1
      refine ⟨by omega, ?_, ?_⟩
      · intro hc
        have := h1 _ hc
        omega
      · intro other b2 ho
        by_contra hne
        rw [Function.update_noteq hne] at ho
        have := (h2 other _ b2 ho).1
        omega
    · rw [Function.update_noteq htt] at ht
      obtain ⟨a, b, d⟩ := h2 t stream buffered ht
      refine ⟨by omega, b, ?_⟩
      intro other b2 ho
      by_cases hot : other = token
      · subst hot
        rw [Function.update_same] at ho
        simp only [Option.some.injEq, Prod.mk.injEq] at ho
        omega
      · rw [Function.update_noteq hot] at ho
        exact d other b2 ho

theorem StreamsInvariant_Broadcast (c : ClientsState) (s : ResponseStream)
    (h : StreamsInvariant c) : StreamsInvariant (Broadcast c s) := by
  obtain ⟨h1, h2⟩ := h
  have key : ∀ t stream buffered, (Broadcast c s).Streams t = some (stream, buffered) →
      ∃ b0, c.Streams t = some (stream, b0) := by
    intro t stream buffered ht
    simp only [Broadcast] at ht
    cases hs : c.Streams t with
    | none => simp [hs] at ht
    | some entry =>
      obtain ⟨r, b0⟩ := entry
      simp only [hs, Option.map_some', Option.some.injEq, Prod.mk.injEq] at ht
      exact ⟨b0, by rw [ht.1]⟩
  refine ⟨h1, ?_⟩
  intro t stream buffered ht
  obtain ⟨b0, hb0⟩ := key t stream buffered ht
  obtain ⟨a, b, d⟩ := h2 t stream b0 hb0
  refine ⟨a, b, ?_⟩
  intro other b2 ho
  obtain ⟨b3, hb3⟩ := key other stream b2 ho
  exact d other b3 hb3

theorem CloseStream_of_invariant (c : ClientsState) (token : String)
    (h : StreamsInvariant c) :
    ∃ c2, CloseStream c token = some c2 ∧ StreamsInvariant c2 ∧
      c2.Streams = Function.update c.Streams token none ∧
      (∀ stream buffered, c.Streams token = some (stream, buffered) → stream ∈ c2.closed) := by
  obtain ⟨h1, h2⟩ := h
  unfold CloseStream
  cases hs : c.Streams token with
  | none =>
    refine ⟨c, rfl, ⟨h1, h2⟩, ?_, ?_⟩
    · funext t
      by_cases ht : t = token
      · subst ht; simp [hs]
      · simp [Function.update_noteq ht]
    · intro stream buffered he
      cases he
  | some entry =>
    obtain ⟨stream, buffered⟩ := entry
    obtain ⟨a, b, d⟩ := h2 token stream buffered hs
    simp only [b, if_false]
    refine ⟨_, rfl, ⟨?_, ?_⟩, rfl, ?_⟩
    · intro r hr
      simp only [List.mem_cons] at hr
      rcases hr with hr | hr
      · rw [hr]; exact a
      · exact h1 r hr
    · intro t r b1 ht
      have htt : t ≠ token := by
        intro e
        subst e
        simp at ht
      simp only [Function.update_noteq htt] at ht
      obtain ⟨a1, b1', d1⟩ := h2 t r b1 ht
      refine ⟨a1, ?_, ?_⟩
      · simp only [List.mem_cons, not_or]
        refine ⟨?_, b1'⟩
        intro e
        subst e
        exact htt (d t b1 ht)
      · intro other b2 ho
        have hot : other ≠ token := by
          intro e
          subst e
          simp at ho
        simp only [Function.update_noteq hot] at ho
        exact d1 other b2 ho
    · intro r b1 he
      simp only [Option.some.injEq, Prod.mk.injEq] at he
      simp [he.1]

end Refs

namespace Refs

theorem step_of_invariant (st : Sessions) (op : SessionOp)
    (h : StreamsInvariant st.Clients) :
    ∃ st2, step st op = some st2 ∧ StreamsInvariant st2.Clients := by
  cases op with
  | start id token => exact ⟨_, rfl, StreamsInvariant_AddStream _ token h⟩
  | stop id token =>
    obtain ⟨c2, hc, hinv, _⟩ := CloseStream_of_invariant st.Clients token h
    exact ⟨{ st with Clients := c2 }, by simp [step, hc], hinv⟩
  | broadcast s => exact ⟨_, rfl, StreamsInvariant_Broadcast _ s h⟩

theorem runSessions_of_invariant (ops : List SessionOp) (st : Sessions)
    (h : StreamsInvariant st.Clients) :
    ∃ st2, runSessions ops st = some st2 ∧ StreamsInvariant st2.Clients := by
  induction ops generalizing st with
  | nil => exact ⟨st, rfl, h⟩
  | cons op ops ih =>
    obtain ⟨st1, h1, hinv1⟩ := step_of_invariant st op h
    obtain ⟨st2, h2, hinv2⟩ := ih st1 hinv1
    exact ⟨st2, by simp [runSessions, h1, h2], hinv2⟩

theorem runSessions_append (pre post : List SessionOp) (st : Sessions) :
    runSessions (pre ++ post) st = (runSessions pre st).bind (runSessions post) := by
  induction pre generalizing st with
  | nil => simp [runSessions]
  | cons op pre ih =>
    simp only [List.cons_append, runSessions]
    cases step st op with
    | none => simp
    | some st1 => simpa using ih st1

theorem runSessions_undisturbed (post : List SessionOp) (id : Nat) (token : String) :
    ∀ (st : Sessions) (mine : Nat) (buffered : List ResponseStream),
      StreamsInvariant st.Clients → st.stream id = some mine →
      st.Clients.Streams token = some (mine, buffered) →
      undisturbed id token post = true →
      ∃ st2, runSessions post st = some st2 ∧ StreamsInvariant st2.Clients ∧
        st2.stream id = some mine ∧
        st2.Clients.Streams token = some (mine, (broadcasts post).foldl trySend buffered) := by
  induction post with
  | nil =>
    intro st mine buffered hinv hmine hreg _
    exact ⟨st, rfl, hinv, hmine, by simpa [broadcasts] using hreg⟩
  | cons op post ih =>
    intro st mine buffered hinv hmine hreg hq
    cases op with
    | start i t =>
      simp only [undisturbed, Bool.and_eq_true, decide_eq_true_eq] at hq
      obtain ⟨⟨hi, ht⟩, hrest⟩ := hq
      have hid : id ≠ i := fun e => hi e.symm
      have htok : token ≠ t := fun e => ht e.symm
      obtain ⟨st2, hrun, h2⟩ := ih
        { Clients := (AddStream st.Clients t).1,
          stream := Function.update st.stream i (some (AddStream st.Clients t).2) }
        mine buffered (StreamsInvariant_AddStream _ t hinv)
        (by simp [Function.update_noteq hid, hmine])
        (by simp [AddStream, Function.update_noteq htok, hreg]) hrest
      exact ⟨st2, by simpa [runSessions, step] using hrun, by simpa [broadcasts] using h2⟩
    | stop i t =>
      simp only [undisturbed, Bool.and_eq_true, decide_eq_true_eq] at hq
      obtain ⟨ht, hrest⟩ := hq
      have htok : token ≠ t := fun e => ht e.symm
      obtain ⟨c2, hc, hinv2, hstreams, _⟩ := CloseStream_of_invariant st.Clients t hinv
      obtain ⟨st2, hrun, h2⟩ := ih { st with Clients := c2 } mine buffered hinv2 hmine
        (by simp [hstreams, Function.update_noteq htok, hreg]) hrest
      exact ⟨st2, by simpa [runSessions, step, hc] using hrun, by simpa [broadcasts] using h2⟩
    | broadcast s =>
      simp only [undisturbed] at hq
      obtain ⟨st2, hrun, h2⟩ := ih { st with Clients := Broadcast st.Clients s } mine
        (trySend buffered s) (StreamsInvariant_Broadcast _ s hinv) hmine
        (by simp [Broadcast, hreg]) hq
      exact ⟨st2, by simpa [runSessions, step] using hrun, by simpa [broadcasts] using h2⟩

/-- C11, as the code has it.  On a new registry, after any steps of stream
sessions, let session `id` become active on a token and let only broadcasts and
the starts and ends of sessions on other tokens follow.  Then no step has
panicked; the channel the session got from `AddStream` is the one registered
under the token, it is open, and it holds the events broadcast since the
session became active, each put in by the non-blocking send; the token has at
most one registered channel; and the end of the session removes that channel
from `Streams` and closes it. -/
theorem session_owns_queue_while_undisturbed (pre post : List SessionOp) (id : Nat)
    (token : String) (hq : undisturbed id token post = true) :
    ∃ st, runSessions (pre ++ SessionOp.start id token :: post) NewSessions = some st ∧
      ownsQueue st id token = true ∧
      (∃ mine, st.stream id = some mine ∧
        st.Clients.Streams token = some (mine, (broadcasts post).foldl trySend []) ∧
        mine ∉ st.Clients.closed ∧
        ∃ st2, step st (SessionOp.stop id token) = some st2 ∧
          st2.Clients.Streams token = none ∧ mine ∈ st2.Clients.closed) ∧
      (∀ q1 q2, st.Clients.Streams token = some q1 → st.Clients.Streams token = some q2 →
        q1 = q2) := by
  obtain ⟨st0, hpre, hinv0⟩ := runSessions_of_invariant pre NewSessions StreamsInvariant_New
  obtain ⟨st, hrun, hinv, hmine, hreg⟩ := runSessions_undisturbed post id token
    { Clients := (AddStream st0.Clients token).1,
      stream := Function.update st0.stream id (some (AddStream st0.Clients token).2) }
    st0.Clients.made [] (StreamsInvariant_AddStream _ token hinv0)
    (by simp [AddStream]) (by simp [AddStream]) hq
  have hopen : st0.Clients.made ∉ st.Clients.closed := (hinv.2 token _ _ hreg).2.1
  obtain ⟨c2, hc, _, hstreams, hclosed⟩ := CloseStream_of_invariant st.Clients token hinv
  refine ⟨st, ?_, ?_, ⟨st0.Clients.made, hmine, hreg, hopen, ?_⟩, ?_⟩
  · rw [runSessions_append, hpre]
    simpa [runSessions, step] using hrun
  · simp [ownsQueue, hmine, hreg, hopen]
  · refine ⟨{ st with Clients := c2 }, by simp [step, hc], ?_, hclosed _ _ hreg⟩
    simp [hstreams]
  · intro q1 q2 h1 h2
    rw [h1] at h2
    exact Option.some.inj h2

theorem session_owns_queue_while_undisturbed_witness :
    undisturbed 2 "T"
      [SessionOp.broadcast ⟨3, Event.ClientMessage "Alice" "hello"⟩, SessionOp.start 3 "U",
        SessionOp.stop 3 "U"] = true ∧
    ∃ st, runSessions
        ([SessionOp.start 1 "T", SessionOp.stop 1 "T"] ++ SessionOp.start 2 "T" ::
          [SessionOp.broadcast ⟨3, Event.ClientMessage "Alice" "hello"⟩, SessionOp.start 3 "U",
            SessionOp.stop 3 "U"]) NewSessions = some st ∧
      ownsQueue st 2 "T" = true ∧
      (∃ mine, st.stream 2 = some mine ∧
        st.Clients.Streams "T" = some (mine,
          (broadcasts [SessionOp.broadcast ⟨3, Event.ClientMessage "Alice" "hello"⟩,
            SessionOp.start 3 "U", SessionOp.stop 3 "U"]).foldl trySend []) ∧
        mine ∉ st.Clients.closed ∧
        ∃ st2, step st (SessionOp.stop 2 "T") = some st2 ∧
          st2.Clients.Streams "T" = none ∧ mine ∈ st2.Clients.closed) ∧
      (∀ q1 q2, st.Clients.Streams "T" = some q1 → st.Clients.Streams "T" = some q2 →
        q1 = q2) :=
  ⟨by decide,
    session_owns_queue_while_undisturbed [SessionOp.start 1 "T", SessionOp.stop 1 "T"]
      [SessionOp.broadcast ⟨3, Event.ClientMessage "Alice" "hello"⟩, SessionOp.start 3 "U",
        SessionOp.stop 3 "U"] 2 "T" (by decide)⟩

/-- C11 as stated fails.  Sessions 1 and 2 become active on the same token, in
that order, and session 1 ends: every session has called `AddStream` once and
no session has ended twice, session 2 is still active, but the `CloseStream` of
session 1 has deleted the entry of the token, which held the channel of
session 2 (reference 1), and closed that channel. -/
theorem session_queue_closed_by_other_session :
    wellFormed [SessionOp.start 1 "T", SessionOp.start 2 "T", SessionOp.stop 1 "T"] = true ∧
    active [SessionOp.start 1 "T", SessionOp.start 2 "T", SessionOp.stop 1 "T"] 2 "T" = true ∧
    (runSessions [SessionOp.start 1 "T", SessionOp.start 2 "T", SessionOp.stop 1 "T"]
      NewSessions).map (fun st => st.stream 2) = some (some 1) ∧
    (runSessions [SessionOp.start 1 "T", SessionOp.start 2 "T", SessionOp.stop 1 "T"]
      NewSessions).map (fun st => st.Clients.Streams "T") = some none ∧
    (runSessions [SessionOp.start 1 "T", SessionOp.start 2 "T", SessionOp.stop 1 "T"]
      NewSessions).map (fun st => st.Clients.closed) = some [1] ∧
    (runSessions [SessionOp.start 1 "T", SessionOp.start 2 "T", SessionOp.stop 1 "T"]
      NewSessions).map (fun st => ownsQueue st 2 "T") = some false := by
  refine ⟨by decide, by decide, by decide, by decide, by decide, by decide⟩

end Refs

end server
